import Mathlib

/-!
Verification development for the ECS (Entity-Component-System) game-engine core.

This file gives a shallow embedding of the ECS runtime:

* `Entity`, `NULL_ENTITY`, `MAX_ENTITIES` (Entity.h),
* `Signature` as a set of bit positions below `MAX_COMPONENTS` (Signature.h,
  `std::bitset<64>`),
* `ComponentArray` — the dense component store with the two index maps
  (ComponentArray.h),
* `EntityManager` — the id recycling pool plus the per-entity signature array
  (EntityManager.h),
* `ComponentManager` — type registration and per-type stores
  (ComponentManager.h),
* `World` — the orchestrator (World.h / World.cpp).

C++ `assert` and out-of-range container accesses are modelled by returning
`none`: an operation yields `some s` exactly when the call runs to completion
in the source.  `std::unordered_map` is modelled by an association list with
C++ `operator[]` assignment semantics (`assignA`), lookup (`lookupA`) and
erase (`eraseA`); the `uint32_t` living-entity counter decrements modulo
2^32 as in the source.
-/

/-! ### Entity.h and Signature.h -/

abbrev Entity := Nat

abbrev NULL_ENTITY : Entity := 0

abbrev MAX_ENTITIES : Entity := 4096

abbrev MAX_COMPONENTS : Nat := 64

abbrev Signature := Finset (Fin MAX_COMPONENTS)

abbrev ComponentBit := Nat

/-- Stand-in for `std::type_index`: an opaque key identifying a component type. -/
abbrev CompType := Nat

/-- `uint32_t` modulus, for the living-count decrement in `destroyEntity`. -/
abbrev UINT32_MOD : Nat := 4294967296

/-- `std::bitset<64>::set(pos)`: throws (here: `none`) when `pos ≥ 64`. -/
def sigSet (s : Signature) (b : ComponentBit) : Option Signature :=
  if h : b < MAX_COMPONENTS then some (insert (⟨b, h⟩ : Fin MAX_COMPONENTS) s) else none

/-- `std::bitset<64>::reset(pos)`: throws (here: `none`) when `pos ≥ 64`. -/
def sigReset (s : Signature) (b : ComponentBit) : Option Signature :=
  if h : b < MAX_COMPONENTS then some (s.erase ⟨b, h⟩) else none

/-! ### Association-list model of `std::unordered_map` -/

/-- `map.find(k)` / `map.at(k)`. -/
def lookupA {α β : Type} [DecidableEq α] : List (α × β) → α → Option β
  | [], _ => none
  | p :: rest, k => if k = p.1 then some p.2 else lookupA rest k

/-- `map[k] = v`: update in place when the key is present, append otherwise. -/
def assignA {α β : Type} [DecidableEq α] : List (α × β) → α → β → List (α × β)
  | [], k, v => [(k, v)]
  | p :: rest, k, v => if k = p.1 then (p.1, v) :: rest else p :: assignA rest k v

/-- `map.erase(k)`: drop the entry for `k` if present. -/
def eraseA {α β : Type} [DecidableEq α] : List (α × β) → α → List (α × β)
  | [], _ => []
  | p :: rest, k => if k = p.1 then rest else p :: eraseA rest k

theorem lookupA_assignA_self {α β : Type} [DecidableEq α]
    (l : List (α × β)) (k : α) (v : β) : lookupA (assignA l k v) k = some v := by
  induction l with
  | nil => simp [assignA, lookupA]
  | cons p rest ih =>
    by_cases h : k = p.1 <;> simp [assignA, lookupA, h, ih]

theorem lookupA_assignA_ne {α β : Type} [DecidableEq α]
    (l : List (α × β)) (k k' : α) (v : β) (h : k' ≠ k) :
    lookupA (assignA l k v) k' = lookupA l k' := by
  induction l with
  | nil => simp [assignA, lookupA, h]
  | cons p rest ih =>
    by_cases hp : k = p.1
    · subst hp
      simp [assignA, lookupA, h]
    · by_cases hp' : k' = p.1 <;> simp [assignA, lookupA, hp, hp', ih]

theorem assignA_of_lookupA_none {α β : Type} [DecidableEq α]
    (l : List (α × β)) (k : α) (v : β) (h : lookupA l k = none) :
    assignA l k v = l ++ [(k, v)] := by
  induction l with
  | nil => simp [assignA]
  | cons p rest ih =>
    by_cases hp : k = p.1
    · simp [lookupA, hp] at h
    · simp [lookupA, hp] at h
      simp [assignA, hp, ih h]

theorem keys_assignA_of_isSome {α β : Type} [DecidableEq α]
    (l : List (α × β)) (k : α) (v : β) (h : (lookupA l k).isSome) :
    (assignA l k v).map Prod.fst = l.map Prod.fst := by
  induction l with
  | nil => simp [lookupA] at h
  | cons p rest ih =>
    by_cases hp : k = p.1
    · simp [assignA, hp]
    · simp [lookupA, hp] at h
      simp [assignA, hp, ih h]

theorem length_assignA_of_isSome {α β : Type} [DecidableEq α]
    (l : List (α × β)) (k : α) (v : β) (h : (lookupA l k).isSome) :
    (assignA l k v).length = l.length := by
  have := keys_assignA_of_isSome l k v h
  have h1 : ((assignA l k v).map Prod.fst).length = (l.map Prod.fst).length := by rw [this]
  simpa using h1

theorem lookupA_eraseA_ne {α β : Type} [DecidableEq α]
    (l : List (α × β)) (k k' : α) (h : k' ≠ k) :
    lookupA (eraseA l k) k' = lookupA l k' := by
  induction l with
  | nil => simp [eraseA]
  | cons p rest ih =>
    by_cases hp : k = p.1
    · subst hp
      simp [eraseA, lookupA, h]
    · by_cases hp' : k' = p.1 <;> simp [eraseA, lookupA, hp, hp', ih]

theorem mem_keys_of_lookupA_isSome {α β : Type} [DecidableEq α]
    (l : List (α × β)) (k : α) (h : (lookupA l k).isSome) : k ∈ l.map Prod.fst := by
  induction l with
  | nil => simp [lookupA] at h
  | cons p rest ih =>
    by_cases hp : k = p.1
    · simp [hp]
    · simp [lookupA, hp] at h
      simp [ih h]

theorem lookupA_none_of_not_mem_keys {α β : Type} [DecidableEq α]
    (l : List (α × β)) (k : α) (h : k ∉ l.map Prod.fst) : lookupA l k = none := by
  induction l with
  | nil => simp [lookupA]
  | cons p rest ih =>
    simp only [List.map_cons, List.mem_cons] at h
    push_neg at h
    simp [lookupA, h.1, ih h.2]

theorem lookupA_eraseA_self {α β : Type} [DecidableEq α]
    (l : List (α × β)) (k : α) (h : (l.map Prod.fst).Nodup) :
    lookupA (eraseA l k) k = none := by
  induction l with
  | nil => simp [eraseA, lookupA]
  | cons p rest ih =>
    simp only [List.map_cons, List.nodup_cons] at h
    by_cases hp : k = p.1
    · subst hp
      simpa [eraseA] using lookupA_none_of_not_mem_keys rest p.1 h.1
    · simp [eraseA, lookupA, hp, ih h.2]

theorem length_eraseA_of_isSome {α β : Type} [DecidableEq α]
    (l : List (α × β)) (k : α) (h : (lookupA l k).isSome) :
    (eraseA l k).length + 1 = l.length := by
  induction l with
  | nil => simp [lookupA] at h
  | cons p rest ih =>
    by_cases hp : k = p.1
    · simp [eraseA, hp]
    · simp [lookupA, hp] at h
      simp [eraseA, hp, ih h]

theorem keys_eraseA_sublist {α β : Type} [DecidableEq α]
    (l : List (α × β)) (k : α) :
    ((eraseA l k).map Prod.fst).Sublist (l.map Prod.fst) := by
  induction l with
  | nil => simp [eraseA]
  | cons p rest ih =>
    by_cases hp : k = p.1
    · simp only [eraseA, hp, if_pos rfl, List.map_cons]
      exact (List.sublist_cons_self _ _)
    · simp only [eraseA, hp, if_neg hp, List.map_cons]
      exact ih.cons₂ p.1

theorem keys_eraseA_nodup {α β : Type} [DecidableEq α]
    (l : List (α × β)) (k : α) (h : (l.map Prod.fst).Nodup) :
    ((eraseA l k).map Prod.fst).Nodup :=
  h.sublist (keys_eraseA_sublist l k)

theorem lookupA_isSome_of_mem_keys {α β : Type} [DecidableEq α]
    (l : List (α × β)) (k : α) (h : k ∈ l.map Prod.fst) : (lookupA l k).isSome := by
  induction l with
  | nil => simp at h
  | cons p rest ih =>
    by_cases hp : k = p.1
    · simp [lookupA, hp]
    · simp only [List.map_cons, List.mem_cons] at h
      rcases h with h | h
      · exact absurd h hp
      · simp [lookupA, hp, ih h]

theorem keys_assignA_nodup {α β : Type} [DecidableEq α]
    (l : List (α × β)) (k : α) (v : β) (h : (l.map Prod.fst).Nodup) :
    ((assignA l k v).map Prod.fst).Nodup := by
  cases hk : lookupA l k with
  | some w =>
    rw [keys_assignA_of_isSome l k v (by simp [hk])]
    exact h
  | none =>
    rw [assignA_of_lookupA_none l k v hk]
    simp only [List.map_append, List.map_cons, List.map_nil]
    rw [List.nodup_append]
    refine ⟨h, List.nodup_singleton _, ?_⟩
    intro a ha hb
    simp only [List.mem_singleton] at hb
    subst hb
    have := lookupA_isSome_of_mem_keys l a ha
    rw [hk] at this
    simp at this

/-! ### ComponentArray.h — dense per-type component storage -/

structure ComponentArray (T : Type) where
  components : List T
  entityToIndex : List (Entity × Nat)
  indexToEntity : List Entity
deriving DecidableEq

/-- A freshly constructed (empty) `ComponentArray`. -/
def ComponentArray.empty (T : Type) : ComponentArray T := ⟨[], [], []⟩

/-- `ComponentArray::has`: presence test via the entity-to-index map. -/
def ComponentArray.has {T : Type} (a : ComponentArray T) (entity : Entity) : Bool :=
  (lookupA a.entityToIndex entity).isSome

/-- `ComponentArray::get`: asserts presence, then indexes the dense array.
`none` models the failed assertion or an out-of-range index. -/
def ComponentArray.get {T : Type} (a : ComponentArray T) (entity : Entity) : Option T :=
  (lookupA a.entityToIndex entity).bind fun i => a.components.get? i

/-- `ComponentArray::size`. -/
def ComponentArray.size {T : Type} (a : ComponentArray T) : Nat :=
  a.components.length

/-- `ComponentArray::getEntity`. -/
def ComponentArray.getEntity {T : Type} (a : ComponentArray T) (index : Nat) : Option Entity :=
  a.indexToEntity.get? index

/-- `ComponentArray::insert`: asserts the entity is absent, records
`entity → newIndex`, then appends to both dense arrays. -/
def ComponentArray.insert {T : Type} (a : ComponentArray T) (entity : Entity)
    (component : T) : Option (ComponentArray T) :=
  if (lookupA a.entityToIndex entity).isSome then none
  else
    some { components := a.components ++ [component],
           entityToIndex := assignA a.entityToIndex entity a.components.length,
           indexToEntity := a.indexToEntity ++ [entity] }

/-- `ComponentArray::remove`: asserts presence, swaps the removed slot with the
last slot when they differ (updating both maps for the relocated entity), then
pops the tail entries and erases the removed entity from the map.  `none`
models the failed assertion and the undefined behaviour of indexing an empty
or too-short dense array. -/
def ComponentArray.remove {T : Type} (a : ComponentArray T) (entity : Entity) :
    Option (ComponentArray T) :=
  match lookupA a.entityToIndex entity with
  | none => none
  | some removedIndex =>
    match a.components.length with
    | 0 => none
    | len + 1 =>
      if removedIndex = len then
        some { components := a.components.dropLast,
               entityToIndex := eraseA a.entityToIndex entity,
               indexToEntity := a.indexToEntity.dropLast }
      else
        match a.components.get? len, a.indexToEntity.get? len with
        | some lastComponent, some lastEntity =>
          if removedIndex < len then
            some { components := (a.components.set removedIndex lastComponent).dropLast,
                   entityToIndex := eraseA (assignA a.entityToIndex lastEntity removedIndex) entity,
                   indexToEntity := (a.indexToEntity.set removedIndex lastEntity).dropLast }
          else none
        | _, _ => none

/-- `ComponentArray::entityDestroyed`: remove the component if present. -/
def ComponentArray.entityDestroyed {T : Type} (a : ComponentArray T) (entity : Entity) :
    Option (ComponentArray T) :=
  if (lookupA a.entityToIndex entity).isSome then a.remove entity else some a

/-- The dense-array invariant of a component store: the dense arrays and the
entity-to-index map have equal sizes, map keys are distinct, and the two index
maps are mutually inverse. -/
def ComponentArray.denseInv {T : Type} (a : ComponentArray T) : Prop :=
  a.indexToEntity.length = a.components.length ∧
  a.entityToIndex.length = a.components.length ∧
  (a.entityToIndex.map Prod.fst).Nodup ∧
  (∀ p ∈ a.entityToIndex, a.indexToEntity.get? p.2 = some p.1) ∧
  (∀ i : Fin a.indexToEntity.length, lookupA a.entityToIndex (a.indexToEntity.get i) = some i.1)

theorem lookupA_mem {α β : Type} [DecidableEq α]
    {l : List (α × β)} {k : α} {v : β} (h : lookupA l k = some v) : (k, v) ∈ l := by
  induction l with
  | nil => simp [lookupA] at h
  | cons p rest ih =>
    by_cases hp : k = p.1
    · simp [lookupA, hp] at h
      simp [hp, ← h]
    · simp [lookupA, hp] at h
      simp [ih h]

theorem ComponentArray.denseInv_fwd {T : Type} {a : ComponentArray T}
    (hinv : a.denseInv) {e : Entity} {i : Nat}
    (h : lookupA a.entityToIndex e = some i) : a.indexToEntity.get? i = some e :=
  hinv.2.2.2.1 (e, i) (lookupA_mem h)

theorem ComponentArray.denseInv_bwd {T : Type} {a : ComponentArray T}
    (hinv : a.denseInv) {e : Entity} {i : Nat}
    (h : a.indexToEntity.get? i = some e) : lookupA a.entityToIndex e = some i := by
  have hlt : i < a.indexToEntity.length := by
    by_contra hge
    rw [List.get?_eq_none.2 (Nat.le_of_not_lt hge)] at h
    exact Option.noConfusion h
  have hget : a.indexToEntity.get ⟨i, hlt⟩ = e := by
    have := List.get?_eq_get hlt
    rw [this] at h
    exact Option.some.inj h
  have := hinv.2.2.2.2 ⟨i, hlt⟩
  rw [hget] at this
  exact this

theorem lookupA_of_mem_nodup {α β : Type} [DecidableEq α]
    {l : List (α × β)} (h : (l.map Prod.fst).Nodup) {p : α × β} (hp : p ∈ l) :
    lookupA l p.1 = some p.2 := by
  induction l with
  | nil => simp at hp
  | cons q rest ih =>
    simp only [List.map_cons, List.nodup_cons] at h
    rcases List.mem_cons.1 hp with hq | hq
    · subst hq
      simp [lookupA]
    · have hne : p.1 ≠ q.1 := by
        intro he
        exact h.1 (he ▸ List.mem_map_of_mem Prod.fst hq)
      simp [lookupA, hne, ih h.2 hq]

theorem get?_dropLast_of_lt {α : Type} (l : List α) (i : Nat) (h : i + 1 < l.length) :
    l.dropLast.get? i = l.get? i := by
  rw [List.get?_eq_getElem?, List.get?_eq_getElem?, List.getElem?_dropLast,
    if_pos (by omega : i < l.length - 1)]

/-- Assemble `denseInv` from the unbounded forms of the two inverse-map
conditions. -/
theorem ComponentArray.denseInv_mk {T : Type} (a : ComponentArray T)
    (h1 : a.indexToEntity.length = a.components.length)
    (h2 : a.entityToIndex.length = a.components.length)
    (h3 : (a.entityToIndex.map Prod.fst).Nodup)
    (h4 : ∀ e i, lookupA a.entityToIndex e = some i → a.indexToEntity.get? i = some e)
    (h5 : ∀ i e, a.indexToEntity.get? i = some e → lookupA a.entityToIndex e = some i) :
    a.denseInv := by
  refine ⟨h1, h2, h3, ?_, ?_⟩
  · intro p hp
    exact h4 p.1 p.2 (lookupA_of_mem_nodup h3 hp)
  · intro i
    exact h5 i.1 _ (List.get?_eq_get i.2)

theorem ComponentArray.insert_spec {T : Type} (a : ComponentArray T)
    (entity : Entity) (component : T)
    (hinv : a.denseInv) (habsent : lookupA a.entityToIndex entity = none) :
    ∃ a', a.insert entity component = some a' ∧ a'.denseInv ∧
      a'.components.length = a.components.length + 1 ∧
      lookupA a'.entityToIndex entity = some a.components.length ∧
      (∀ e2 i2, e2 ≠ entity → lookupA a.entityToIndex e2 = some i2 →
        lookupA a'.entityToIndex e2 = some i2) := by
  have h1 := hinv.1
  have h2 := hinv.2.1
  have h3 := hinv.2.2.1
  refine ⟨⟨a.components ++ [component],
          assignA a.entityToIndex entity a.components.length,
          a.indexToEntity ++ [entity]⟩,
    by simp [ComponentArray.insert, habsent], ?_, by simp, ?_, ?_⟩
  · refine ComponentArray.denseInv_mk _ (by simp [h1]) ?_ ?_ ?_ ?_
    · simp only [assignA_of_lookupA_none _ _ _ habsent]
      simp [h2]
    · exact keys_assignA_nodup _ _ _ h3
    · intro e i h
      by_cases he : e = entity
      · subst he
        rw [lookupA_assignA_self] at h
        have hi : i = a.components.length := by
          exact (Option.some.inj h).symm
        subst hi
        rw [← h1]
        exact List.get?_concat_length _ _
      · rw [lookupA_assignA_ne _ _ _ _ he] at h
        have := ComponentArray.denseInv_fwd hinv h
        have hlt : i < a.indexToEntity.length := by
          by_contra hge
          rw [List.get?_eq_none.2 (Nat.le_of_not_lt hge)] at this
          exact Option.noConfusion this
        rw [List.get?_append hlt]
        exact this
    · intro i e h
      have hlen : (a.indexToEntity ++ [entity]).length = a.indexToEntity.length + 1 := by simp
      have hlt : i < a.indexToEntity.length + 1 := by
        by_contra hge
        rw [List.get?_eq_none.2 (by omega : (a.indexToEntity ++ [entity]).length ≤ i)] at h
        exact Option.noConfusion h
      rcases Nat.lt_succ_iff_lt_or_eq.1 hlt with hlt' | heq
      · rw [List.get?_append hlt'] at h
        have hb := ComponentArray.denseInv_bwd hinv h
        have hne2 : e ≠ entity := by
          intro he
          subst he
          rw [habsent] at hb
          exact Option.noConfusion hb
        rw [lookupA_assignA_ne _ _ _ _ hne2]
        exact hb
      · subst heq
        rw [List.get?_concat_length] at h
        have he : e = entity := (Option.some.inj h).symm
        subst he
        rw [lookupA_assignA_self]
        congr 1
        omega
  · rw [lookupA_assignA_self]
  · intro e2 i2 hne h
    rw [lookupA_assignA_ne _ _ _ _ hne]
    exact h

theorem ComponentArray.remove_spec {T : Type} (a : ComponentArray T) (entity : Entity)
    (ri : Nat) (hinv : a.denseInv) (hpres : lookupA a.entityToIndex entity = some ri) :
    ∃ a', a.remove entity = some a' ∧ a'.denseInv ∧
      a'.components.length + 1 = a.components.length ∧
      lookupA a'.entityToIndex entity = none ∧
      (∀ e2 i2, e2 ≠ entity → lookupA a.entityToIndex e2 = some i2 →
        ∃ i3, lookupA a'.entityToIndex e2 = some i3 ∧
          a'.components.get? i3 = a.components.get? i2) := by
  have h1 := hinv.1
  have h2 := hinv.2.1
  have h3 := hinv.2.2.1
  have hfe : a.indexToEntity.get? ri = some entity := ComponentArray.denseInv_fwd hinv hpres
  have hriI : ri < a.indexToEntity.length := by
    by_contra hge
    rw [List.get?_eq_none.2 (Nat.le_of_not_lt hge)] at hfe
    exact Option.noConfusion hfe
  have hriC : ri < a.components.length := h1 ▸ hriI
  obtain ⟨len, hclen⟩ : ∃ len, a.components.length = len + 1 :=
    ⟨a.components.length - 1, by omega⟩
  by_cases hlast : ri = len
  · subst hlast
    refine ⟨⟨a.components.dropLast, eraseA a.entityToIndex entity, a.indexToEntity.dropLast⟩,
      by simp [ComponentArray.remove, hpres, hclen], ?_, ?_,
      lookupA_eraseA_self _ _ h3, ?_⟩
    · have hmlen : (eraseA a.entityToIndex entity).length + 1 = a.entityToIndex.length :=
        length_eraseA_of_isSome _ _ (by simp [hpres])
      refine ComponentArray.denseInv_mk _ (by simp [h1]) (by simp; omega) (keys_eraseA_nodup _ _ h3) ?_ ?_
      · intro e2 i2 h
        have hne : e2 ≠ entity := by
          intro he
          subst he
          rw [lookupA_eraseA_self _ _ h3] at h
          exact Option.noConfusion h
        rw [lookupA_eraseA_ne _ _ _ hne] at h
        have hf := ComponentArray.denseInv_fwd hinv h
        have hi2 : i2 < a.indexToEntity.length := by
          by_contra hge
          rw [List.get?_eq_none.2 (Nat.le_of_not_lt hge)] at hf
          exact Option.noConfusion hf
        have hi2ne : i2 ≠ ri := by
          intro he
          subst he
          rw [hf] at hfe
          exact hne (Option.some.inj hfe)
        rw [get?_dropLast_of_lt _ _ (by omega)]
        exact hf
      · intro i e2 h
        have hib : i < a.indexToEntity.length - 1 := by
          by_contra hge
          rw [List.get?_eq_none.2 (by simp; omega)] at h
          exact Option.noConfusion h
        rw [get?_dropLast_of_lt _ _ (by omega)] at h
        have hb := ComponentArray.denseInv_bwd hinv h
        have hne : e2 ≠ entity := by
          intro he
          subst he
          rw [hpres] at hb
          have := Option.some.inj hb
          omega
        rw [lookupA_eraseA_ne _ _ _ hne]
        exact hb
    · simp
      omega
    · intro e2 i2 hne h
      refine ⟨i2, by rw [lookupA_eraseA_ne _ _ _ hne]; exact h, ?_⟩
      have hf := ComponentArray.denseInv_fwd hinv h
      have hi2 : i2 < a.indexToEntity.length := by
        by_contra hge
        rw [List.get?_eq_none.2 (Nat.le_of_not_lt hge)] at hf
        exact Option.noConfusion hf
      have hi2ne : i2 ≠ ri := by
        intro he
        subst he
        rw [hf] at hfe
        exact hne (Option.some.inj hfe)
      exact get?_dropLast_of_lt _ _ (by omega)
  · have hri : ri < len := by omega
    have hlenC : len < a.components.length := by omega
    have hlenI : len < a.indexToEntity.length := by omega
    have hlc : a.components.get? len = some (a.components.get ⟨len, hlenC⟩) :=
      List.get?_eq_get hlenC
    have hle : a.indexToEntity.get? len = some (a.indexToEntity.get ⟨len, hlenI⟩) :=
      List.get?_eq_get hlenI
    set lastComponent := a.components.get ⟨len, hlenC⟩ with hdefC
    set lastEntity := a.indexToEntity.get ⟨len, hlenI⟩ with hdefE
    have hLaste : lookupA a.entityToIndex lastEntity = some len :=
      ComponentArray.denseInv_bwd hinv hle
    have hLneE : lastEntity ≠ entity := by
      intro he
      rw [he, hpres] at hLaste
      exact hlast (Option.some.inj hLaste)
    have hA3 : ((assignA a.entityToIndex lastEntity ri).map Prod.fst).Nodup :=
      keys_assignA_nodup _ _ _ h3
    have hAsome : lookupA (assignA a.entityToIndex lastEntity ri) entity = some ri := by
      rw [lookupA_assignA_ne _ _ _ _ hLneE.symm]
      exact hpres
    have hMnone :
        lookupA (eraseA (assignA a.entityToIndex lastEntity ri) entity) entity = none :=
      lookupA_eraseA_self _ _ hA3
    have hMlookL :
        lookupA (eraseA (assignA a.entityToIndex lastEntity ri) entity) lastEntity = some ri := by
      rw [lookupA_eraseA_ne _ _ _ hLneE]
      exact lookupA_assignA_self _ _ _
    have hMlen :
        (eraseA (assignA a.entityToIndex lastEntity ri) entity).length = len := by
      have e1 := length_eraseA_of_isSome (assignA a.entityToIndex lastEntity ri) entity
        (by simp [hAsome])
      have e2 := length_assignA_of_isSome a.entityToIndex lastEntity ri (by simp [hLaste])
      omega
    have hClen : ((a.components.set ri lastComponent).dropLast).length = len := by
      simp
      omega
    have hIlen : ((a.indexToEntity.set ri lastEntity).dropLast).length = len := by
      simp
      omega
    have hC : ∀ i, i < len →
        ((a.components.set ri lastComponent).dropLast).get? i =
          if i = ri then some lastComponent else a.components.get? i := by
      intro i hi
      rw [get?_dropLast_of_lt _ _ (by simp; omega)]
      by_cases hir : i = ri
      · subst hir
        rw [if_pos rfl]
        exact List.get?_set_eq_of_lt _ (by omega)
      · rw [if_neg hir]
        exact List.get?_set_ne _ _ (fun he => hir he.symm)
    have hI : ∀ i, i < len →
        ((a.indexToEntity.set ri lastEntity).dropLast).get? i =
          if i = ri then some lastEntity else a.indexToEntity.get? i := by
      intro i hi
      rw [get?_dropLast_of_lt _ _ (by simp; omega)]
      by_cases hir : i = ri
      · subst hir
        rw [if_pos rfl]
        exact List.get?_set_eq_of_lt _ (by omega)
      · rw [if_neg hir]
        exact List.get?_set_ne _ _ (fun he => hir he.symm)
    refine ⟨⟨(a.components.set ri lastComponent).dropLast,
            eraseA (assignA a.entityToIndex lastEntity ri) entity,
            (a.indexToEntity.set ri lastEntity).dropLast⟩,
      ?_, ?_, by simp; omega, hMnone, ?_⟩
    · have hlc2 : a.components[len]? = some lastComponent := by
        rw [← List.get?_eq_getElem?]
        exact hlc
      have hle2 : a.indexToEntity[len]? = some lastEntity := by
        rw [← List.get?_eq_getElem?]
        exact hle
      simp [ComponentArray.remove, hpres, hclen, hlast, hlc2, hle2, hri, ← hdefC, ← hdefE]
    · refine ComponentArray.denseInv_mk _ (by rw [hIlen, hClen]) (by rw [hMlen, hClen])
        (keys_eraseA_nodup _ _ hA3) ?_ ?_
      · intro e2 i2 h
        have hneE : e2 ≠ entity := by
          intro he
          subst he
          rw [hMnone] at h
          exact Option.noConfusion h
        rw [lookupA_eraseA_ne _ _ _ hneE] at h
        by_cases hLe : e2 = lastEntity
        · subst hLe
          rw [lookupA_assignA_self] at h
          have hi2ri : i2 = ri := (Option.some.inj h).symm
          rw [hi2ri, hI ri hri, if_pos rfl]
        · rw [lookupA_assignA_ne _ _ _ _ hLe] at h
          have hf := ComponentArray.denseInv_fwd hinv h
          have hb2 : i2 < a.indexToEntity.length := by
            by_contra hge
            rw [List.get?_eq_none.2 (Nat.le_of_not_lt hge)] at hf
            exact Option.noConfusion hf
          have hir : i2 ≠ ri := by
            intro he
            subst he
            rw [hf] at hfe
            exact hneE (Option.some.inj hfe)
          have hil : i2 ≠ len := by
            intro he
            subst he
            rw [hf] at hle
            exact hLe (Option.some.inj hle)
          rw [hI i2 (by omega), if_neg hir]
          exact hf
      · intro i e2 h
        have hib : i < len := by
          by_contra hge
          rw [List.get?_eq_none.2 (by rw [hIlen]; omega)] at h
          exact Option.noConfusion h
        rw [hI i hib] at h
        by_cases hir : i = ri
        · rw [if_pos hir] at h
          have : e2 = lastEntity := (Option.some.inj h).symm
          subst this
          rw [hMlookL]
          rw [hir]
        · rw [if_neg hir] at h
          have hb := ComponentArray.denseInv_bwd hinv h
          have hneE : e2 ≠ entity := by
            intro he
            subst he
            rw [hpres] at hb
            exact hir (Option.some.inj hb).symm
          have hneL : e2 ≠ lastEntity := by
            intro he
            subst he
            rw [hLaste] at hb
            have := Option.some.inj hb
            omega
          rw [lookupA_eraseA_ne _ _ _ hneE, lookupA_assignA_ne _ _ _ _ hneL]
          exact hb
    · intro e2 i2 hne h
      by_cases hLe : e2 = lastEntity
      · subst hLe
        have hi2 : i2 = len := by
          rw [hLaste] at h
          exact (Option.some.inj h).symm
        subst hi2
        refine ⟨ri, hMlookL, ?_⟩
        rw [hC ri hri, if_pos rfl, hlc]
      · have hf := ComponentArray.denseInv_fwd hinv h
        have hb2 : i2 < a.indexToEntity.length := by
          by_contra hge
          rw [List.get?_eq_none.2 (Nat.le_of_not_lt hge)] at hf
          exact Option.noConfusion hf
        have hir : i2 ≠ ri := by
          intro he
          subst he
          rw [hf] at hfe
          exact hne (Option.some.inj hfe)
        have hil : i2 ≠ len := by
          intro he
          subst he
          rw [hf] at hle
          exact hLe (Option.some.inj hle)
        refine ⟨i2, ?_, ?_⟩
        · rw [lookupA_eraseA_ne _ _ _ hne, lookupA_assignA_ne _ _ _ _ hLe]
          exact h
        · rw [hC i2 (by omega), if_neg hir]

theorem ComponentArray.insert_denseInv {T : Type} {a a1 : ComponentArray T}
    {e : Entity} {v : T} (hinv : a.denseInv) (h : a.insert e v = some a1) : a1.denseInv := by
  cases hl : lookupA a.entityToIndex e with
  | some i => simp [ComponentArray.insert, hl] at h
  | none =>
    obtain ⟨a2, h2, hinv2, _⟩ := ComponentArray.insert_spec a e v hinv hl
    rw [h2] at h
    exact (Option.some.inj h) ▸ hinv2

theorem ComponentArray.remove_denseInv {T : Type} {a a1 : ComponentArray T}
    {e : Entity} (hinv : a.denseInv) (h : a.remove e = some a1) : a1.denseInv := by
  cases hl : lookupA a.entityToIndex e with
  | none => simp [ComponentArray.remove, hl] at h
  | some ri =>
    obtain ⟨a2, h2, hinv2, _⟩ := ComponentArray.remove_spec a e ri hinv hl
    rw [h2] at h
    exact (Option.some.inj h) ▸ hinv2

theorem ComponentArray.denseInv_empty (T : Type) : (ComponentArray.empty T).denseInv := by
  refine ⟨rfl, rfl, by simp [ComponentArray.empty], ?_, ?_⟩
  · intro p hp
    simp [ComponentArray.empty] at hp
  · intro i
    exact absurd i.2 (by simp [ComponentArray.empty])

/-- A single `ComponentArray` mutation: `insert(e, v)` or `remove(e)`. -/
inductive CAOp (T : Type) where
  | ins : Entity → T → CAOp T
  | rem : Entity → CAOp T

def applyCAOp {T : Type} (a : ComponentArray T) : CAOp T → Option (ComponentArray T)
  | .ins e v => a.insert e v
  | .rem e => a.remove e

/-- Run a sequence of insert/remove operations; `none` as soon as a stated
precondition (duplicate insert, remove of an absent entity) is violated. -/
def runCAOps {T : Type} : List (CAOp T) → ComponentArray T → Option (ComponentArray T)
  | [], a => some a
  | op :: rest, a => (applyCAOp a op).bind (runCAOps rest)

theorem runCAOps_denseInv {T : Type} :
    ∀ (ops : List (CAOp T)) (a a' : ComponentArray T),
      a.denseInv → runCAOps ops a = some a' → a'.denseInv := by
  intro ops
  induction ops with
  | nil =>
    intro a a' h hrun
    simp [runCAOps] at hrun
    exact hrun ▸ h
  | cons op rest ih =>
    intro a a' h hrun
    simp only [runCAOps] at hrun
    cases happ : applyCAOp a op with
    | none => rw [happ] at hrun; exact Option.noConfusion hrun
    | some a1 =>
      rw [happ] at hrun
      simp only [Option.some_bind] at hrun
      have h1 : a1.denseInv := by
        cases op with
        | ins e v => exact ComponentArray.insert_denseInv h happ
        | rem e => exact ComponentArray.remove_denseInv h happ
      exact ih a1 a' h1 hrun

/-- Claim C2: after any sequence of `insert`/`remove` operations on a
`ComponentArray` that respects the stated preconditions (modelled by the run
returning `some`), `size()` equals the number of entries in the
entity-to-index map, and for every entity `e` present in the store,
`indexToEntity[entityToIndex[e]] == e`. -/
theorem c2_dense_invariant {T : Type} (ops : List (CAOp T)) (a : ComponentArray T)
    (hrun : runCAOps ops (ComponentArray.empty T) = some a) :
    a.size = a.entityToIndex.length ∧
    ∀ e i, lookupA a.entityToIndex e = some i → a.indexToEntity.get? i = some e := by
  have hinv : a.denseInv := runCAOps_denseInv ops _ a (ComponentArray.denseInv_empty T) hrun
  refine ⟨?_, fun e i h => ComponentArray.denseInv_fwd hinv h⟩
  have := hinv.2.1
  show a.components.length = a.entityToIndex.length
  omega

/-- Witness for C2 at a concrete operation sequence. -/
theorem c2_dense_invariant_witness :
    ∃ a, runCAOps [CAOp.ins 1 (10 : Nat), CAOp.ins 2 20, CAOp.rem 1]
        (ComponentArray.empty Nat) = some a ∧
      (a.size = a.entityToIndex.length ∧
       ∀ e i, lookupA a.entityToIndex e = some i → a.indexToEntity.get? i = some e) :=
  ⟨⟨[20], [(2, 0)], [2]⟩, by decide,
    c2_dense_invariant [CAOp.ins 1 (10 : Nat), CAOp.ins 2 20, CAOp.rem 1]
      ⟨[20], [(2, 0)], [2]⟩ (by decide)⟩

/-- Claim C4: on a store satisfying the dense-array invariant, removing a
present entity decreases `size()` by exactly one, makes `has(e)` false, and
every other present entity stays present with the same `get` value. -/
theorem c4_remove_frame {T : Type} (a : ComponentArray T) (e : Entity)
    (hinv : a.denseInv) (hpres : a.has e = true) :
    ∃ a', a.remove e = some a' ∧
      a'.size + 1 = a.size ∧
      a'.has e = false ∧
      ∀ e2, e2 ≠ e → a.has e2 = true →
        (a'.has e2 = true ∧ a'.get e2 = a.get e2) := by
  simp only [ComponentArray.has, Option.isSome_iff_exists] at hpres
  obtain ⟨ri, hl⟩ := hpres
  obtain ⟨a', hrem, hinv', hsize, hnone, hframe⟩ := ComponentArray.remove_spec a e ri hinv hl
  refine ⟨a', hrem, by simpa [ComponentArray.size] using hsize,
    by simp [ComponentArray.has, hnone], ?_⟩
  intro e2 hne hhas
  simp only [ComponentArray.has, Option.isSome_iff_exists] at hhas
  obtain ⟨i2, hl2⟩ := hhas
  obtain ⟨i3, hl3, hcomp⟩ := hframe e2 i2 hne hl2
  refine ⟨by simp [ComponentArray.has, hl3], ?_⟩
  simp only [ComponentArray.get, hl3, hl2, Option.some_bind]
  exact hcomp

/-- A concrete dense store used as the C4 witness input. -/
def caWitness : ComponentArray Nat := ⟨[10, 20], [(1, 0), (2, 1)], [1, 2]⟩

/-- Witness for C4 at a concrete store and entity. -/
theorem c4_remove_frame_witness :
    caWitness.denseInv ∧ caWitness.has 1 = true ∧
      ∃ a', caWitness.remove 1 = some a' ∧
        a'.size + 1 = caWitness.size ∧
        a'.has 1 = false ∧
        ∀ e2, e2 ≠ 1 → caWitness.has e2 = true →
          (a'.has e2 = true ∧ a'.get e2 = caWitness.get e2) :=
  ⟨by unfold ComponentArray.denseInv; decide, by decide,
    c4_remove_frame caWitness 1 (by unfold ComponentArray.denseInv; decide) (by decide)⟩

/-! ### EntityManager.h -/

structure EntityManager where
  availableIds : List Entity
  signatures : List Signature
  livingCount : Nat
deriving DecidableEq

/-- The `EntityManager` constructor: pre-fill the id pool with `1 .. MAX_ENTITIES`
(id `0` is reserved as `NULL_ENTITY`); the `std::array` of signatures is
value-initialized to all-empty. -/
def EntityManager.init : EntityManager :=
  { availableIds := List.range' 1 MAX_ENTITIES,
    signatures := List.replicate (MAX_ENTITIES + 1) ∅,
    livingCount := 0 }

/-- `EntityManager::getSignature`: asserts `0 < entity ≤ MAX_ENTITIES`, then
indexes the signature array. -/
def EntityManager.getSignature (m : EntityManager) (entity : Entity) : Option Signature :=
  if NULL_ENTITY < entity ∧ entity ≤ MAX_ENTITIES then m.signatures.get? entity else none

/-- `EntityManager::setSignature`. -/
def EntityManager.setSignature (m : EntityManager) (entity : Entity)
    (signature : Signature) : Option EntityManager :=
  if NULL_ENTITY < entity ∧ entity ≤ MAX_ENTITIES then
    some { m with signatures := m.signatures.set entity signature }
  else none

/-- `EntityManager::getLivingCount`. -/
def EntityManager.getLivingCount (m : EntityManager) : Nat :=
  m.livingCount

/-- `EntityManager::createEntity`: asserts `livingCount < MAX_ENTITIES`, pops
the queue front, increments the living count (the `uint32_t` increment cannot
wrap because the assertion bounds the count by `MAX_ENTITIES`). -/
def EntityManager.createEntity (m : EntityManager) : Option (Entity × EntityManager) :=
  if m.livingCount < MAX_ENTITIES then
    match m.availableIds with
    | [] => none
    | id :: rest =>
      some (id, { m with availableIds := rest, livingCount := m.livingCount + 1 })
  else none

/-- `EntityManager::destroyEntity`: asserts the range precondition, clears the
signature, pushes the id back onto the queue, and decrements the `uint32_t`
living count (modelled modulo 2^32, as the source counter wraps on underflow). -/
def EntityManager.destroyEntity (m : EntityManager) (entity : Entity) : Option EntityManager :=
  if NULL_ENTITY < entity ∧ entity ≤ MAX_ENTITIES then
    some { m with
      signatures := m.signatures.set entity ∅,
      availableIds := m.availableIds ++ [entity],
      livingCount := (m.livingCount + (UINT32_MOD - 1)) % UINT32_MOD }
  else none

/-- `k` consecutive `createEntity` calls, collecting the returned ids. -/
def runCreates : Nat → EntityManager → Option (List Entity × EntityManager)
  | 0, m => some ([], m)
  | k + 1, m =>
    (m.createEntity).bind fun p =>
      (runCreates k p.2).bind fun q => some (p.1 :: q.1, q.2)

theorem runCreates_append :
    ∀ (l1 l2 : List Entity) (sigs : List Signature) (n : Nat),
      n + l1.length ≤ MAX_ENTITIES →
      runCreates l1.length ⟨l1 ++ l2, sigs, n⟩ = some (l1, ⟨l2, sigs, n + l1.length⟩) := by
  intro l1
  induction l1 with
  | nil =>
    intro l2 sigs n h
    simp [runCreates]
  | cons e rest ih =>
    intro l2 sigs n h
    simp only [List.length_cons] at h ⊢
    have hc : EntityManager.createEntity ⟨(e :: rest) ++ l2, sigs, n⟩ =
        some (e, ⟨rest ++ l2, sigs, n + 1⟩) := by
      simp [EntityManager.createEntity, (show n < MAX_ENTITIES by omega)]
    rw [runCreates, hc, Option.some_bind, ih l2 sigs (n + 1) (by omega), Option.some_bind]
    have harith : n + 1 + rest.length = n + (rest.length + 1) := by omega
    rw [harith]

/-- Specialization of `runCreates_append` that drains the whole pool, stated
with explicit count arguments so concrete instances need no rewriting on
4096-element list literals. -/
theorem runCreates_full (k : Nat) (l1 : List Entity) (sigs : List Signature)
    (n t : Nat) (hk : l1.length = k) (ht : n + k = t) (h : n + k ≤ MAX_ENTITIES) :
    runCreates k ⟨l1, sigs, n⟩ = some (l1, ⟨[], sigs, t⟩) := by
  subst hk
  subst ht
  have happ := runCreates_append l1 [] sigs n h
  rwa [List.append_nil] at happ

/-- Claim C7: from a freshly constructed `EntityManager`, the first
`MAX_ENTITIES` consecutive `createEntity` calls all run to completion (the
exhaustion assertion `livingCount < MAX_ENTITIES` holds at each call, which is
exactly what a `some` result of `runCreates` encodes), returning the ids
`1 .. MAX_ENTITIES`; the `(MAX_ENTITIES+1)`-th call fails its exhaustion
assertion. -/
theorem c7_exhaustion :
    runCreates MAX_ENTITIES EntityManager.init =
      some (List.range' 1 MAX_ENTITIES,
        ⟨[], List.replicate (MAX_ENTITIES + 1) ∅, MAX_ENTITIES⟩) ∧
    EntityManager.createEntity
      ⟨[], List.replicate (MAX_ENTITIES + 1) ∅, MAX_ENTITIES⟩ = none := by
  constructor
  · exact runCreates_full MAX_ENTITIES (List.range' 1 MAX_ENTITIES)
      (List.replicate (MAX_ENTITIES + 1) ∅) 0 MAX_ENTITIES
      (by rw [List.length_range']) (by omega) (by omega)
  · simp [EntityManager.createEntity]

/-! ### EntityManager call sequences (claim C3) -/

/-- One `EntityManager` call: create, destroy, or a signature write. -/
inductive EMOp where
  | create : EMOp
  | destroy : Entity → EMOp
  | setSig : Entity → Signature → EMOp

/-- One `EntityManager` call, threading the ghost list of currently-live ids
(ids returned by `createEntity` and not destroyed since; `destroy` removes one
occurrence). -/
def emStep : EntityManager × List Entity → EMOp → Option (EntityManager × List Entity)
  | (m, live), .create => (m.createEntity).map fun p => (p.2, live ++ [p.1])
  | (m, live), .destroy e => (m.destroyEntity e).map fun m2 => (m2, live.erase e)
  | (m, live), .setSig e s => (m.setSignature e s).map fun m2 => (m2, live)

def emRunFrom : List EMOp → EntityManager × List Entity → Option (EntityManager × List Entity)
  | [], s => some s
  | op :: rest, s => (emStep s op).bind (emRunFrom rest)

/-- Run a call sequence from a freshly constructed `EntityManager`. -/
def emRun (ops : List EMOp) : Option (EntityManager × List Entity) :=
  emRunFrom ops (EntityManager.init, [])

theorem emRunFrom_append (a b : List EMOp) (s : EntityManager × List Entity) :
    emRunFrom (a ++ b) s = (emRunFrom a s).bind (emRunFrom b) := by
  induction a generalizing s with
  | nil => simp [emRunFrom]
  | cons op rest ih =>
    simp only [List.cons_append, emRunFrom]
    cases emStep s op with
    | none => simp
    | some s1 => simp [ih]

theorem emRunFrom_creates (l1 : List Entity) :
    ∀ (l2 : List Entity) (sigs : List Signature) (n : Nat) (live : List Entity),
      n + l1.length ≤ MAX_ENTITIES →
      emRunFrom (List.replicate l1.length EMOp.create) (⟨l1 ++ l2, sigs, n⟩, live) =
        some (⟨l2, sigs, n + l1.length⟩, live ++ l1) := by
  induction l1 with
  | nil =>
    intro l2 sigs n live h
    simp [emRunFrom]
  | cons e rest ih =>
    intro l2 sigs n live h
    simp only [List.length_cons] at h ⊢
    rw [List.replicate_succ]
    have hc : emStep (⟨(e :: rest) ++ l2, sigs, n⟩, live) EMOp.create =
        some (⟨rest ++ l2, sigs, n + 1⟩, live ++ [e]) := by
      simp [emStep, EntityManager.createEntity, (show n < MAX_ENTITIES by omega)]
    rw [emRunFrom, hc, Option.some_bind, ih l2 sigs (n + 1) (live ++ [e]) (by omega)]
    have harith : n + 1 + rest.length = n + (rest.length + 1) := by omega
    rw [harith, List.append_assoc]
    rfl

/-- `emRunFrom_creates` in fully applied form (no rewriting needed at
concrete 4096-element instances). -/
theorem emRunFrom_creates_full (k : Nat) (l1 : List Entity) (sigs : List Signature)
    (n t : Nat) (live live2 : List Entity)
    (hk : l1.length = k) (ht : n + k = t) (hl : live2 = live ++ l1)
    (h : n + k ≤ MAX_ENTITIES) :
    emRunFrom (List.replicate k EMOp.create) (⟨l1, sigs, n⟩, live) =
      some (⟨[], sigs, t⟩, live2) := by
  subst hk
  subst ht
  subst hl
  have happ := emRunFrom_creates l1 [] sigs n live h
  rwa [List.append_nil] at happ

/-- The guarded runner for the amended C3 claim: `destroy` and `setSignature`
are required to target a currently-live id. -/
def emStepWF (s : EntityManager × List Entity) : EMOp → Option (EntityManager × List Entity)
  | .create => emStep s .create
  | .destroy e => if e ∈ s.2 then emStep s (.destroy e) else none
  | .setSig e sg => if e ∈ s.2 then emStep s (.setSig e sg) else none

def emRunWFFrom : List EMOp → EntityManager × List Entity → Option (EntityManager × List Entity)
  | [], s => some s
  | op :: rest, s => (emStepWF s op).bind (emRunWFFrom rest)

/-- Run a well-formed call sequence from a freshly constructed `EntityManager`. -/
def emRunWF (ops : List EMOp) : Option (EntityManager × List Entity) :=
  emRunWFFrom ops (EntityManager.init, [])

theorem getD_set_self {α : Type} (l : List α) (i : Nat) (a d : α) (h : i < l.length) :
    (l.set i a).getD i d = a := by
  rw [List.getD_eq_get?, List.get?_set_eq_of_lt a h]
  rfl

theorem getD_set_ne {α : Type} (l : List α) (i j : Nat) (a d : α) (h : i ≠ j) :
    (l.set i a).getD j d = l.getD j d := by
  rw [List.getD_eq_get?, List.getD_eq_get?, List.get?_set_ne a l h]

theorem getD_replicate {α : Type} (n k : Nat) (x : α) :
    (List.replicate n x).getD k x = x := by
  rw [List.getD_eq_getElem?_getD, List.getElem?_replicate]
  split <;> rfl

/-- Invariant tying an `EntityManager` to the ghost list of live ids: pool and
live ids partition `1 .. MAX_ENTITIES`, the living count matches, the
signature array keeps its `std::array` size, and every pooled id has an empty
signature. -/
def EMInv (m : EntityManager) (live : List Entity) : Prop :=
  (m.availableIds ++ live).Perm (List.range' 1 MAX_ENTITIES) ∧
  m.livingCount = live.length ∧
  m.signatures.length = MAX_ENTITIES + 1 ∧
  ∀ e ∈ m.availableIds, m.signatures.getD e ∅ = ∅

theorem emInv_init : EMInv EntityManager.init [] := by
  refine ⟨?_, rfl, by simp [EntityManager.init], ?_⟩
  · show (List.range' 1 MAX_ENTITIES ++ ([] : List Entity)).Perm (List.range' 1 MAX_ENTITIES)
    rw [List.append_nil]
  · intro e he
    exact getD_replicate _ _ _

theorem EMInv.nodup_append {m : EntityManager} {live : List Entity}
    (h : EMInv m live) : (m.availableIds ++ live).Nodup :=
  (h.1.nodup_iff).2 (List.nodup_range' 1 MAX_ENTITIES 1 (by omega))

theorem EMInv.length_eq {m : EntityManager} {live : List Entity}
    (h : EMInv m live) : m.availableIds.length + live.length = MAX_ENTITIES := by
  have := h.1.length_eq
  simpa [List.length_range'] using this

theorem emStepWF_inv (s s' : EntityManager × List Entity) (op : EMOp)
    (hinv : EMInv s.1 s.2) (hstep : emStepWF s op = some s') : EMInv s'.1 s'.2 := by
  obtain ⟨m, live⟩ := s
  obtain ⟨hperm, hcount, hslen, hsig⟩ := hinv
  dsimp only at hperm hcount hslen hsig
  cases op with
  | create =>
    simp only [emStepWF, emStep] at hstep
    unfold EntityManager.createEntity at hstep
    by_cases hlt : m.livingCount < MAX_ENTITIES
    · rw [if_pos hlt] at hstep
      cases hq : m.availableIds with
      | nil => rw [hq] at hstep; simp at hstep
      | cons id rest =>
        rw [hq] at hstep
        simp only [Option.map_some'] at hstep
        have hs' := (Option.some.inj hstep).symm
        subst hs'
        rw [hq] at hperm
        refine ⟨?_, by simp [hcount], hslen, ?_⟩
        · have p1 : (live ++ [id]).Perm (id :: live) := List.perm_append_singleton id live
          have p2 : (rest ++ (live ++ [id])).Perm (rest ++ (id :: live)) :=
            List.Perm.append_left rest p1
          have p3 : (rest ++ (id :: live)).Perm (id :: (rest ++ live)) := List.perm_middle
          exact (p2.trans p3).trans hperm
        · intro e he
          exact hsig e (by rw [hq]; exact List.mem_cons_of_mem _ he)
    · rw [if_neg hlt] at hstep
      simp at hstep
  | destroy e =>
    simp only [emStepWF] at hstep
    by_cases hmem : e ∈ live
    · rw [if_pos hmem] at hstep
      simp only [emStep] at hstep
      unfold EntityManager.destroyEntity at hstep
      by_cases hrange : NULL_ENTITY < e ∧ e ≤ MAX_ENTITIES
      · rw [if_pos hrange] at hstep
        simp only [Option.map_some'] at hstep
        have hs' := (Option.some.inj hstep).symm
        subst hs'
        obtain ⟨hr1, hr2⟩ := hrange
        have hebound : e < m.signatures.length := by
          rw [hslen]
          exact Nat.lt_succ_of_le hr2
        have hlenle : m.availableIds.length + live.length = MAX_ENTITIES := by
          have := hperm.length_eq
          simpa [List.length_range'] using this
        have hlive1 : 0 < live.length := List.length_pos_of_mem hmem
        refine ⟨?_, ?_, by simp [hslen], ?_⟩
        · have p1 : (m.availableIds ++ (e :: live.erase e)).Perm (m.availableIds ++ live) :=
            List.Perm.append_left m.availableIds (List.perm_cons_erase hmem).symm
          have p2 : (m.availableIds ++ [e]) ++ live.erase e =
              m.availableIds ++ (e :: live.erase e) := by
            rw [List.append_assoc]
            rfl
          rw [p2]
          exact p1.trans hperm
        · have hlb : live.length ≤ 4096 := by
            have h1 : live.length ≤ m.availableIds.length + live.length := Nat.le_add_left _ _
            rw [hlenle] at h1
            exact h1
          show (m.livingCount + (4294967296 - 1)) % 4294967296 = (live.erase e).length
          rw [List.length_erase_of_mem hmem, hcount]
          omega
        · intro x hx
          rcases List.mem_append.1 hx with hx | hx
          · by_cases hxe : x = e
            · subst hxe
              exact getD_set_self _ _ _ _ hebound
            · rw [getD_set_ne _ _ _ _ _ (fun hh => hxe hh.symm)]
              exact hsig x hx
          · have hxe : x = e := by simpa using hx
            subst hxe
            exact getD_set_self _ _ _ _ hebound
      · rw [if_neg hrange] at hstep
        simp at hstep
    · rw [if_neg hmem] at hstep
      exact Option.noConfusion hstep
  | setSig e sg =>
    simp only [emStepWF] at hstep
    by_cases hmem : e ∈ live
    · rw [if_pos hmem] at hstep
      simp only [emStep] at hstep
      unfold EntityManager.setSignature at hstep
      by_cases hrange : NULL_ENTITY < e ∧ e ≤ MAX_ENTITIES
      · rw [if_pos hrange] at hstep
        simp only [Option.map_some'] at hstep
        have hs' := (Option.some.inj hstep).symm
        subst hs'
        refine ⟨hperm, hcount, by simp [hslen], ?_⟩
        intro x hx
        have hnd : (m.availableIds ++ live).Nodup :=
          (hperm.nodup_iff).2 (List.nodup_range' 1 MAX_ENTITIES 1 (by omega))
        have hdisj := (List.nodup_append.1 hnd).2.2
        have hxe : x ≠ e := fun heq => hdisj hx (heq ▸ hmem)
        rw [getD_set_ne _ _ _ _ _ (fun hh => hxe hh.symm)]
        exact hsig x hx
      · rw [if_neg hrange] at hstep
        simp at hstep
    · rw [if_neg hmem] at hstep
      exact Option.noConfusion hstep

theorem emRunWFFrom_inv :
    ∀ (ops : List EMOp) (s s' : EntityManager × List Entity),
      EMInv s.1 s.2 → emRunWFFrom ops s = some s' → EMInv s'.1 s'.2 := by
  intro ops
  induction ops with
  | nil =>
    intro s s' h hrun
    simp only [emRunWFFrom] at hrun
    exact (Option.some.inj hrun) ▸ h
  | cons op rest ih =>
    intro s s' h hrun
    simp only [emRunWFFrom] at hrun
    cases hstep : emStepWF s op with
    | none => rw [hstep] at hrun; exact Option.noConfusion hrun
    | some s1 =>
      rw [hstep] at hrun
      simp only [Option.some_bind] at hrun
      exact ih s1 s' (emStepWF_inv s s1 op h hstep) hrun

/-- Counterexample to claim C3 as stated: its precondition lets `destroyEntity`
be called on any id in `(0, MAX_ENTITIES]`, including an id that is not
currently live.  Destroying id 1 twice puts it into the recycling pool twice,
and after enough creates two simultaneously-live entities share id 1 (the
ghost live list holds a duplicate). -/
theorem c3_counterexample :
    ∃ m live,
      emRun ([EMOp.create, EMOp.create, EMOp.destroy 1, EMOp.destroy 1] ++
        List.replicate MAX_ENTITIES EMOp.create) = some (m, live) ∧
      ¬ live.Nodup := by
  have hpre : emRunFrom [EMOp.create, EMOp.create, EMOp.destroy 1, EMOp.destroy 1]
      (EntityManager.init, []) =
      some (⟨(List.range' 3 4094 ++ [1]) ++ [1],
        ((List.replicate (MAX_ENTITIES + 1) ∅).set 1 ∅).set 1 ∅, 0⟩, [2]) := rfl
  refine ⟨⟨[], ((List.replicate (MAX_ENTITIES + 1) ∅).set 1 ∅).set 1 ∅, MAX_ENTITIES⟩,
    [2] ++ ((List.range' 3 4094 ++ [1]) ++ [1]), ?_, ?_⟩
  · show emRunFrom ([EMOp.create, EMOp.create, EMOp.destroy 1, EMOp.destroy 1] ++
        List.replicate MAX_ENTITIES EMOp.create) (EntityManager.init, []) = _
    rw [emRunFrom_append, hpre, Option.some_bind]
    exact emRunFrom_creates_full MAX_ENTITIES ((List.range' 3 4094 ++ [1]) ++ [1])
      (((List.replicate (MAX_ENTITIES + 1) ∅).set 1 ∅).set 1 ∅) 0 MAX_ENTITIES [2]
      ([2] ++ ((List.range' 3 4094 ++ [1]) ++ [1]))
      (by simp [List.length_range', MAX_ENTITIES]) (by omega) rfl (by omega)
  · intro hnd
    have hr := (List.nodup_append.1 hnd).2.1
    have hd := (List.nodup_append.1 hr).2.2
    exact hd (show (1 : Nat) ∈ List.range' 3 4094 ++ [1] by simp) (by simp)

/-- Claim C3, amended: when `destroyEntity` (and any signature write) is only
applied to currently-live ids, then after any call sequence no two
simultaneously-live entities share an id; every id in the recycling pool — in
particular every destroyed id — is returned by a later `createEntity` call
after enough creates; and at the moment an id is returned by `createEntity`
its stored signature is empty. -/
theorem c3_id_recycling_amended (ops : List EMOp) (m : EntityManager) (live : List Entity)
    (hrun : emRunWF ops = some (m, live)) :
    live.Nodup ∧
    (∀ e, e ∈ m.availableIds →
      ∃ k ids m2, runCreates k m = some (ids, m2) ∧ ids.getLast? = some e) ∧
    (∀ e m2, m.createEntity = some (e, m2) → m2.signatures.getD e ∅ = ∅) := by
  have hinv : EMInv m live :=
    emRunWFFrom_inv ops (EntityManager.init, []) (m, live) emInv_init hrun
  refine ⟨?_, ?_, ?_⟩
  · have hnd : (m.availableIds ++ live).Nodup := EMInv.nodup_append hinv
    exact (List.nodup_append.1 hnd).2.1
  · intro e he
    obtain ⟨l1, l2, heq⟩ := List.append_of_mem he
    have hlen : m.availableIds.length + live.length = MAX_ENTITIES := EMInv.length_eq hinv
    have hcount := hinv.2.1
    have hkl : (l1 ++ [e]).length = l1.length + 1 := by simp
    have havlen : m.availableIds.length = l1.length + 1 + l2.length := by
      rw [heq]
      simp
      omega
    have hb : m.livingCount + (l1 ++ [e]).length ≤ MAX_ENTITIES := by
      rw [hkl, hcount]
      omega
    have h := runCreates_append (l1 ++ [e]) l2 m.signatures m.livingCount hb
    rw [List.append_assoc, List.singleton_append, ← heq, hkl] at h
    exact ⟨l1.length + 1, l1 ++ [e], ⟨l2, m.signatures, m.livingCount + (l1.length + 1)⟩,
      h, List.getLast?_concat _⟩
  · intro e m2 hc
    unfold EntityManager.createEntity at hc
    by_cases hlt : m.livingCount < MAX_ENTITIES
    · rw [if_pos hlt] at hc
      cases hq : m.availableIds with
      | nil => rw [hq] at hc; exact Option.noConfusion hc
      | cons id rest =>
        rw [hq] at hc
        obtain ⟨hid, hm2⟩ := Prod.mk.inj (Option.some.inj hc)
        rw [← hm2, ← hid]
        exact hinv.2.2.2 id (by rw [hq]; exact List.mem_cons_self _ _)
    · rw [if_neg hlt] at hc
      exact Option.noConfusion hc

/-- Witness for the amended C3 at a concrete well-formed call sequence. -/
theorem c3_id_recycling_witness :
    ∃ m live,
      emRunWF [EMOp.create, EMOp.setSig 1 {0}, EMOp.destroy 1] = some (m, live) ∧
      (live.Nodup ∧
       (∀ e, e ∈ m.availableIds →
         ∃ k ids m2, runCreates k m = some (ids, m2) ∧ ids.getLast? = some e) ∧
       (∀ e m2, m.createEntity = some (e, m2) → m2.signatures.getD e ∅ = ∅)) := by
  refine ⟨⟨List.range' 2 4095 ++ [1],
      ((List.replicate (MAX_ENTITIES + 1) ∅).set 1 {0}).set 1 ∅, 0⟩, [], rfl,
    c3_id_recycling_amended [EMOp.create, EMOp.setSig 1 {0}, EMOp.destroy 1]
      ⟨List.range' 2 4095 ++ [1],
        ((List.replicate (MAX_ENTITIES + 1) ∅).set 1 {0}).set 1 ∅, 0⟩
      [] rfl⟩

/-! ### ComponentManager.h

Component values are embedded as `Nat`: the ECS core treats component data as
opaque payload, so one value type suffices for the World-level claims. -/

structure ComponentManager where
  typeToBit : List (CompType × ComponentBit)
  typeToArray : List (CompType × ComponentArray Nat)
  nextBit : ComponentBit
deriving DecidableEq

def ComponentManager.init : ComponentManager := ⟨[], [], 0⟩

/-- `ComponentManager::getBit`: asserts the type is registered. -/
def ComponentManager.getBit (cm : ComponentManager) (t : CompType) : Option ComponentBit :=
  lookupA cm.typeToBit t

/-- `ComponentManager::getComponentArray`: asserts the type is registered. -/
def ComponentManager.getComponentArray (cm : ComponentManager) (t : CompType) :
    Option (ComponentArray Nat) :=
  lookupA cm.typeToArray t

/-- `ComponentManager::registerComponent`: asserts the type is new, assigns the
next sequential bit, creates an empty store, advances the bit counter. -/
def ComponentManager.registerComponent (cm : ComponentManager) (t : CompType) :
    Option ComponentManager :=
  if (lookupA cm.typeToBit t).isSome then none
  else some { typeToBit := assignA cm.typeToBit t cm.nextBit,
              typeToArray := assignA cm.typeToArray t (ComponentArray.empty Nat),
              nextBit := cm.nextBit + 1 }

/-- `ComponentManager::addComponent`: delegates to the typed store's insert. -/
def ComponentManager.addComponent (cm : ComponentManager) (t : CompType) (entity : Entity)
    (component : Nat) : Option ComponentManager :=
  (cm.getComponentArray t).bind fun a =>
    (a.insert entity component).map fun a2 =>
      { cm with typeToArray := assignA cm.typeToArray t a2 }

/-- `ComponentManager::removeComponent`: delegates to the typed store's remove. -/
def ComponentManager.removeComponent (cm : ComponentManager) (t : CompType)
    (entity : Entity) : Option ComponentManager :=
  (cm.getComponentArray t).bind fun a =>
    (a.remove entity).map fun a2 =>
      { cm with typeToArray := assignA cm.typeToArray t a2 }

/-- `ComponentManager::hasComponent`: delegates to the typed store. -/
def ComponentManager.hasComponent (cm : ComponentManager) (t : CompType)
    (entity : Entity) : Option Bool :=
  (cm.getComponentArray t).map fun a => a.has entity

/-- Broadcast `entityDestroyed` to every registered store, in map order. -/
def entityDestroyedAll : List (CompType × ComponentArray Nat) → Entity →
    Option (List (CompType × ComponentArray Nat))
  | [], _ => some []
  | (t, a) :: rest, entity =>
    (a.entityDestroyed entity).bind fun a2 =>
      (entityDestroyedAll rest entity).map fun r => (t, a2) :: r

/-- `ComponentManager::entityDestroyed`. -/
def ComponentManager.entityDestroyed (cm : ComponentManager) (entity : Entity) :
    Option ComponentManager :=
  (entityDestroyedAll cm.typeToArray entity).map fun l => { cm with typeToArray := l }

/-! ### System.h and World.h / World.cpp

`SystemSt` models the source class `System` (renamed so as not to collide with
Lean's builtin namespace of the same name): a required signature, a name, an
enabled flag, and the entity set maintained by the World. -/

structure SystemSt where
  entities : Finset Entity
  name : String
  signature : Signature
  enabled : Bool
deriving DecidableEq

structure World where
  entityManager : EntityManager
  componentManager : ComponentManager
  systems : List (String × SystemSt)
  systemOrder : List String
deriving DecidableEq

def World.init : World := ⟨EntityManager.init, ComponentManager.init, [], []⟩

/-- `World::getEntityCount`. -/
def World.getEntityCount (w : World) : Nat :=
  w.entityManager.getLivingCount

/-- `World::isAlive`: the null id and out-of-range ids are never alive;
otherwise alive iff the stored signature has at least one bit set. -/
def World.isAlive (w : World) (entity : Entity) : Bool :=
  if entity = NULL_ENTITY ∨ MAX_ENTITIES < entity then false
  else decide (w.entityManager.signatures.getD entity ∅ ≠ ∅)

/-- `World::createEntity`: delegates to the EntityManager. -/
def World.createEntity (w : World) : Option (Entity × World) :=
  (w.entityManager.createEntity).map fun p => (p.1, { w with entityManager := p.2 })

/-- `World::updateSystemEntitySets`: for every registered system, insert the
entity when `(entitySignature & systemSignature) == systemSignature`, erase it
otherwise. -/
def World.updateSystemEntitySets (w : World) (entity : Entity)
    (entitySignature : Signature) : World :=
  { w with systems := w.systems.map fun p =>
      (p.1, if entitySignature ∩ p.2.signature = p.2.signature
            then { p.2 with entities := insert entity p.2.entities }
            else { p.2 with entities := p.2.entities.erase entity }) }

/-- `World::destroyEntity`: purge the entity from every system set, clean up
its components, then recycle the id. -/
def World.destroyEntity (w : World) (entity : Entity) : Option World :=
  let systems2 := w.systems.map fun p =>
    (p.1, { p.2 with entities := p.2.entities.erase entity })
  (w.componentManager.entityDestroyed entity).bind fun cm2 =>
    (w.entityManager.destroyEntity entity).map fun em2 =>
      { w with systems := systems2, componentManager := cm2, entityManager := em2 }

/-- `World::registerComponent`. -/
def World.registerComponent (w : World) (t : CompType) : Option World :=
  (w.componentManager.registerComponent t).map fun cm2 =>
    { w with componentManager := cm2 }

/-- `World::addComponent`: store the component, set the type's bit in the
entity's signature, write it back, then refresh every system's entity set. -/
def World.addComponent (w : World) (t : CompType) (entity : Entity)
    (component : Nat) : Option World :=
  (w.componentManager.addComponent t entity component).bind fun cm2 =>
    (w.entityManager.getSignature entity).bind fun signature =>
      (w.componentManager.getBit t).bind fun b =>
        (sigSet signature b).bind fun signature2 =>
          (w.entityManager.setSignature entity signature2).map fun em2 =>
            World.updateSystemEntitySets
              { w with componentManager := cm2, entityManager := em2 }
              entity signature2

/-- `World::removeComponent`: remove the component, clear the type's bit in
the entity's signature, write it back, then refresh every system's entity set. -/
def World.removeComponent (w : World) (t : CompType) (entity : Entity) : Option World :=
  (w.componentManager.removeComponent t entity).bind fun cm2 =>
    (w.entityManager.getSignature entity).bind fun signature =>
      (w.componentManager.getBit t).bind fun b =>
        (sigReset signature b).bind fun signature2 =>
          (w.entityManager.setSignature entity signature2).map fun em2 =>
            World.updateSystemEntitySets
              { w with componentManager := cm2, entityManager := em2 }
              entity signature2

/-- `World::hasComponent`. -/
def World.hasComponent (w : World) (t : CompType) (entity : Entity) : Option Bool :=
  w.componentManager.hasComponent t entity

/-- `World::registerSystem`: construct the system with an empty entity set,
store it under its name (replacing any previous holder of that name), and
append the name to the ordered update list; the system is returned. -/
def World.registerSystem (w : World) (name : String) (signature : Signature) :
    SystemSt × World :=
  let system : SystemSt :=
    { entities := ∅, name := name, signature := signature, enabled := true }
  (system, { w with systems := assignA w.systems name system,
                    systemOrder := w.systemOrder ++ [name] })

/-- `World::getSystem`. -/
def World.getSystem (w : World) (name : String) : Option SystemSt :=
  lookupA w.systems name

/-- `World::updateSystems`, abstracted to the frame's invocation schedule: for
each name in registration order, the system object looked up under that name
is invoked when enabled.  The virtual update hooks themselves are opaque
application code, so the schedule is the observable behaviour. -/
def World.updateInvocations (w : World) : List SystemSt :=
  w.systemOrder.filterMap fun n =>
    (lookupA w.systems n).bind fun s => if s.enabled then some s else none

theorem lookupA_map_value {α β γ : Type} [DecidableEq α]
    (l : List (α × β)) (g : β → γ) (k : α) :
    lookupA (l.map fun p => (p.1, g p.2)) k = (lookupA l k).map g := by
  induction l with
  | nil => simp [lookupA]
  | cons p rest ih =>
    by_cases hp : k = p.1 <;> simp [lookupA, hp, ih]

theorem eraseA_append_of_none {α β : Type} [DecidableEq α]
    (l : List (α × β)) (k : α) (v : β) (h : lookupA l k = none) :
    eraseA (l ++ [(k, v)]) k = l := by
  induction l with
  | nil => simp [eraseA]
  | cons p rest ih =>
    by_cases hp : k = p.1
    · simp [lookupA, hp] at h
    · simp [lookupA, hp] at h
      simp [eraseA, hp, ih h]

theorem EntityManager.getSignature_inv {m : EntityManager} {e : Entity} {s : Signature}
    (h : m.getSignature e = some s) :
    (NULL_ENTITY < e ∧ e ≤ MAX_ENTITIES) ∧ m.signatures.get? e = some s := by
  unfold EntityManager.getSignature at h
  by_cases hr : NULL_ENTITY < e ∧ e ≤ MAX_ENTITIES
  · rw [if_pos hr] at h
    exact ⟨hr, h⟩
  · rw [if_neg hr] at h
    exact Option.noConfusion h

/-- Inversion of a successful `World::addComponent` call: names the stored
manager, the prior signature, the type's bit, and shows the result is the
membership refresh over the signature with the bit set. -/
theorem World.addComponent_inv {w : World} {t : CompType} {e : Entity} {v : Nat}
    {w2 : World} (h : w.addComponent t e v = some w2) :
    ∃ cm2 sig1 b, ∃ hb : b < MAX_COMPONENTS,
      w.componentManager.addComponent t e v = some cm2 ∧
      w.entityManager.getSignature e = some sig1 ∧
      w.componentManager.getBit t = some b ∧
      (NULL_ENTITY < e ∧ e ≤ MAX_ENTITIES) ∧
      w2 = World.updateSystemEntitySets
        { w with componentManager := cm2,
                 entityManager := { w.entityManager with
                   signatures :=
                     w.entityManager.signatures.set e (insert ⟨b, hb⟩ sig1) } }
        e (insert ⟨b, hb⟩ sig1) := by
  unfold World.addComponent at h
  cases h1 : w.componentManager.addComponent t e v with
  | none => rw [h1] at h; exact Option.noConfusion h
  | some cm2 =>
    rw [h1] at h
    simp only [Option.some_bind] at h
    cases h2 : w.entityManager.getSignature e with
    | none => rw [h2] at h; exact Option.noConfusion h
    | some sig1 =>
      rw [h2] at h
      simp only [Option.some_bind] at h
      cases h3 : w.componentManager.getBit t with
      | none => rw [h3] at h; exact Option.noConfusion h
      | some b =>
        rw [h3] at h
        simp only [Option.some_bind] at h
        unfold sigSet at h
        by_cases hb : b < MAX_COMPONENTS
        · rw [dif_pos hb] at h
          simp only [Option.some_bind] at h
          have hrange := (EntityManager.getSignature_inv h2).1
          unfold EntityManager.setSignature at h
          rw [if_pos hrange] at h
          simp only [Option.map_some'] at h
          exact ⟨cm2, sig1, b, hb, rfl, rfl, rfl, hrange, (Option.some.inj h).symm⟩
        · rw [dif_neg hb] at h
          exact Option.noConfusion h

/-- Inversion of a successful `World::removeComponent` call. -/
theorem World.removeComponent_inv {w : World} {t : CompType} {e : Entity}
    {w2 : World} (h : w.removeComponent t e = some w2) :
    ∃ cm2 sig1 b, ∃ hb : b < MAX_COMPONENTS,
      w.componentManager.removeComponent t e = some cm2 ∧
      w.entityManager.getSignature e = some sig1 ∧
      w.componentManager.getBit t = some b ∧
      (NULL_ENTITY < e ∧ e ≤ MAX_ENTITIES) ∧
      w2 = World.updateSystemEntitySets
        { w with componentManager := cm2,
                 entityManager := { w.entityManager with
                   signatures :=
                     w.entityManager.signatures.set e (sig1.erase ⟨b, hb⟩) } }
        e (sig1.erase ⟨b, hb⟩) := by
  unfold World.removeComponent at h
  cases h1 : w.componentManager.removeComponent t e with
  | none => rw [h1] at h; exact Option.noConfusion h
  | some cm2 =>
    rw [h1] at h
    simp only [Option.some_bind] at h
    cases h2 : w.entityManager.getSignature e with
    | none => rw [h2] at h; exact Option.noConfusion h
    | some sig1 =>
      rw [h2] at h
      simp only [Option.some_bind] at h
      cases h3 : w.componentManager.getBit t with
      | none => rw [h3] at h; exact Option.noConfusion h
      | some b =>
        rw [h3] at h
        simp only [Option.some_bind] at h
        unfold sigReset at h
        by_cases hb : b < MAX_COMPONENTS
        · rw [dif_pos hb] at h
          simp only [Option.some_bind] at h
          have hrange := (EntityManager.getSignature_inv h2).1
          unfold EntityManager.setSignature at h
          rw [if_pos hrange] at h
          simp only [Option.map_some'] at h
          exact ⟨cm2, sig1, b, hb, rfl, rfl, rfl, hrange, (Option.some.inj h).symm⟩
        · rw [dif_neg hb] at h
          exact Option.noConfusion h

/-- Claim C5: `World::isAlive` returns false for the null id `0` and for ids
greater than `MAX_ENTITIES`; otherwise it returns true exactly when the
signature stored for the entity in the `EntityManager` has at least one bit
set. -/
theorem c5_isAlive_spec (w : World) (entity : Entity) :
    ((entity = NULL_ENTITY ∨ MAX_ENTITIES < entity) → w.isAlive entity = false) ∧
    (¬(entity = NULL_ENTITY ∨ MAX_ENTITIES < entity) →
      (w.isAlive entity = true ↔ w.entityManager.signatures.getD entity ∅ ≠ ∅)) := by
  constructor
  · intro h
    simp [World.isAlive, h]
  · intro h
    simp [World.isAlive, h]

/-- Witness for C5 at the null id and at id 1 of a fresh world. -/
theorem c5_isAlive_spec_witness :
    ((0 = NULL_ENTITY ∨ MAX_ENTITIES < 0) ∧ World.init.isAlive 0 = false) ∧
    (¬(1 = NULL_ENTITY ∨ MAX_ENTITIES < 1) ∧
      (World.init.isAlive 1 = true ↔
        World.init.entityManager.signatures.getD 1 ∅ ≠ ∅)) :=
  ⟨⟨Or.inl rfl, (c5_isAlive_spec World.init 0).1 (Or.inl rfl)⟩,
   ⟨by decide, (c5_isAlive_spec World.init 1).2 (by decide)⟩⟩

/-- Claim C10: an id returned by `World::createEntity` is not alive before any
component is added (its stored signature is empty), belongs to no system's
entity set, yet it is counted by `getEntityCount`; concretely, after one
create from a fresh world the count is 1 while no id at all is alive, so the
count strictly exceeds the number of alive ids. -/
theorem c10_created_not_alive :
    (∀ (w : World) (e : Entity) (w2 : World),
      w.createEntity = some (e, w2) →
      w.entityManager.signatures.getD e ∅ = ∅ →
      (∀ p ∈ w.systems, e ∉ p.2.entities) →
      (w2.isAlive e = false ∧ (∀ p ∈ w2.systems, e ∉ p.2.entities) ∧
        w2.getEntityCount = w.getEntityCount + 1)) ∧
    (∃ e w2, World.init.createEntity = some (e, w2) ∧
      w2.getEntityCount = 1 ∧ ∀ e2, w2.isAlive e2 = false) := by
  constructor
  · intro w e w2 hc hsig hsys
    unfold World.createEntity at hc
    cases hq : w.entityManager.createEntity with
    | none => rw [hq] at hc; exact Option.noConfusion hc
    | some p =>
      rw [hq] at hc
      simp only [Option.map_some'] at hc
      obtain ⟨hid, hw2⟩ := Prod.mk.inj (Option.some.inj hc)
      unfold EntityManager.createEntity at hq
      by_cases hlt : w.entityManager.livingCount < MAX_ENTITIES
      · rw [if_pos hlt] at hq
        cases hav : w.entityManager.availableIds with
        | nil => rw [hav] at hq; exact Option.noConfusion hq
        | cons id rest =>
          rw [hav] at hq
          have hp := (Option.some.inj hq).symm
          subst hp
          subst hw2
          refine ⟨?_, ?_, ?_⟩
          · unfold World.isAlive
            dsimp only
            split
            · rfl
            · rw [List.getD_eq_getElem?_getD] at hsig
              simp [hsig]
          · intro p hp2
            exact hsys p hp2
          · rfl
      · rw [if_neg hlt] at hq
        exact Option.noConfusion hq
  · refine ⟨1, ⟨⟨List.range' 2 4095, List.replicate (MAX_ENTITIES + 1) ∅, 1⟩,
      ComponentManager.init, [], []⟩, rfl, rfl, ?_⟩
    intro e2
    unfold World.isAlive
    split
    · rfl
    · simp [getD_replicate]

/-- Witness for the conditional part of C10 at a fresh world. -/
theorem c10_created_not_alive_witness :
    ∃ e w2, World.init.createEntity = some (e, w2) ∧
      w2.isAlive e = false ∧ (∀ p ∈ w2.systems, e ∉ p.2.entities) ∧
      w2.getEntityCount = World.init.getEntityCount + 1 := by
  have h := (c10_created_not_alive).1 World.init 1
    ⟨⟨List.range' 2 4095, List.replicate (MAX_ENTITIES + 1) ∅, 1⟩,
      ComponentManager.init, [], []⟩ rfl (getD_replicate _ _ _)
    (by intro p hp; simp [World.init] at hp)
  exact ⟨1, _, rfl, h.1, h.2.1, h.2.2⟩

/-- Claim C9: registering two systems under the same name leaves only the
second in the name-to-system map, appends the name twice to the ordered
update list, and a single `updateSystems` frame then invokes the second
system's hook twice and never the first's (the invocation schedule is exactly
the old schedule followed by two invocations of the second system). -/
theorem c9_duplicate_name_registration (w : World) (nm : String) (sig1 sig2 : Signature)
    (hord : nm ∉ w.systemOrder) :
    World.getSystem ((w.registerSystem nm sig1).2.registerSystem nm sig2).2 nm =
      some ⟨∅, nm, sig2, true⟩ ∧
    ((w.registerSystem nm sig1).2.registerSystem nm sig2).2.systemOrder =
      w.systemOrder ++ [nm, nm] ∧
    World.updateInvocations ((w.registerSystem nm sig1).2.registerSystem nm sig2).2 =
      World.updateInvocations w ++ [⟨∅, nm, sig2, true⟩, ⟨∅, nm, sig2, true⟩] := by
  refine ⟨?_, ?_, ?_⟩
  · show lookupA (assignA (assignA w.systems nm ⟨∅, nm, sig1, true⟩) nm
      ⟨∅, nm, sig2, true⟩) nm = _
    rw [lookupA_assignA_self]
  · show (w.systemOrder ++ [nm]) ++ [nm] = w.systemOrder ++ [nm, nm]
    rw [List.append_assoc]
    rfl
  · show ((w.systemOrder ++ [nm]) ++ [nm]).filterMap
        (fun n => (lookupA (assignA (assignA w.systems nm ⟨∅, nm, sig1, true⟩) nm
            ⟨∅, nm, sig2, true⟩) n).bind
          fun s => if s.enabled then some s else none) = _
    rw [List.append_assoc, List.filterMap_append]
    congr 1
    · apply List.filterMap_congr
      intro x hx
      have hxn : x ≠ nm := fun he => hord (he ▸ hx)
      rw [lookupA_assignA_ne _ _ _ _ hxn, lookupA_assignA_ne _ _ _ _ hxn]
    · have hfnm : (lookupA (assignA (assignA w.systems nm ⟨∅, nm, sig1, true⟩) nm
            ⟨∅, nm, sig2, true⟩) nm).bind
          (fun s => if s.enabled then some s else none) =
          some ⟨∅, nm, sig2, true⟩ := by
        rw [lookupA_assignA_self]
        rfl
      rw [List.singleton_append]
      simp only [List.filterMap_cons, List.filterMap_nil, hfnm]

/-- A fixed system name used by concrete witness states. -/
def sysS : String := "s"

/-- Witness for C9 at a fresh world and two distinct signatures. -/
theorem c9_duplicate_name_registration_witness :
    World.getSystem ((World.init.registerSystem sysS ∅).2.registerSystem sysS {0}).2 sysS =
      some ⟨∅, sysS, {0}, true⟩ ∧
    ((World.init.registerSystem sysS ∅).2.registerSystem sysS {0}).2.systemOrder =
      World.init.systemOrder ++ [sysS, sysS] ∧
    World.updateInvocations ((World.init.registerSystem sysS ∅).2.registerSystem sysS {0}).2 =
      World.updateInvocations World.init ++ [⟨∅, sysS, {0}, true⟩, ⟨∅, sysS, {0}, true⟩] :=
  c9_duplicate_name_registration World.init sysS ∅ {0} (by simp [World.init])

/-- Claim C8: `registerSystem` returns a system whose entity set is empty, no
matter what entities already exist; a pre-existing matching entity enters the
new system's set via the membership refresh of a later `addComponent` on it
(membership after that call matches the refreshed signature test). -/
theorem c8_registerSystem_no_retroactive (w : World) (nm : String) (sig : Signature) :
    ((w.registerSystem nm sig).1.entities = ∅ ∧
     World.getSystem (w.registerSystem nm sig).2 nm = some (w.registerSystem nm sig).1) ∧
    (∀ t e v w2, (w.registerSystem nm sig).2.addComponent t e v = some w2 →
      ∃ S2, World.getSystem w2 nm = some S2 ∧
        (e ∈ S2.entities ↔ w2.entityManager.signatures.getD e ∅ ∩ sig = sig)) := by
  constructor
  · refine ⟨rfl, ?_⟩
    show lookupA (assignA w.systems nm ⟨∅, nm, sig, true⟩) nm = _
    rw [lookupA_assignA_self]
    rfl
  · intro t e v w2 hadd
    obtain ⟨cm2, sig1, b, hb, h1, h2, h3, hrange, hw2⟩ := World.addComponent_inv hadd
    subst hw2
    have hg : w.entityManager.signatures.get? e = some sig1 :=
      (EntityManager.getSignature_inv h2).2
    have hlen : e < w.entityManager.signatures.length := by
      by_contra hge
      rw [List.get?_eq_none.2 (Nat.le_of_not_lt hge)] at hg
      exact Option.noConfusion hg
    have hgd : (w.entityManager.signatures.set e
        (insert (⟨b, hb⟩ : Fin MAX_COMPONENTS) sig1)).getD e ∅ =
        insert (⟨b, hb⟩ : Fin MAX_COMPONENTS) sig1 :=
      getD_set_self _ _ _ _ hlen
    have hlook := lookupA_map_value (assignA w.systems nm ⟨∅, nm, sig, true⟩)
      (fun S => if insert (⟨b, hb⟩ : Fin MAX_COMPONENTS) sig1 ∩ S.signature = S.signature
        then { S with entities := insert e S.entities }
        else { S with entities := S.entities.erase e }) nm
    rw [lookupA_assignA_self] at hlook
    simp only [Option.map_some'] at hlook
    by_cases hcond : insert (⟨b, hb⟩ : Fin MAX_COMPONENTS) sig1 ∩ sig = sig
    · refine ⟨⟨insert e ∅, nm, sig, true⟩, ?_, ?_⟩
      · rw [if_pos hcond] at hlook
        exact hlook
      · show e ∈ insert e (∅ : Finset Entity) ↔ _
        simp only [Finset.mem_insert, Finset.not_mem_empty, or_false, true_iff, eq_self_iff_true]
        show (w.entityManager.signatures.set e _).getD e ∅ ∩ sig = sig
        rw [hgd]
        exact hcond
    · refine ⟨⟨(∅ : Finset Entity).erase e, nm, sig, true⟩, ?_, ?_⟩
      · rw [if_neg hcond] at hlook
        exact hlook
      · constructor
        · intro hmem
          exact absurd hmem (by simp)
        · intro hc
          exfalso
          apply hcond
          have : (w.entityManager.signatures.set e
              (insert (⟨b, hb⟩ : Fin MAX_COMPONENTS) sig1)).getD e ∅ ∩ sig = sig := hc
          rw [hgd] at this
          exact this

theorem ComponentArray.insert_inv {T : Type} {a a2 : ComponentArray T} {e : Entity} {v : T}
    (h : a.insert e v = some a2) :
    lookupA a.entityToIndex e = none ∧
    a2 = ⟨a.components ++ [v], assignA a.entityToIndex e a.components.length,
          a.indexToEntity ++ [e]⟩ := by
  unfold ComponentArray.insert at h
  by_cases hl : (lookupA a.entityToIndex e).isSome
  · rw [if_pos hl] at h
    exact Option.noConfusion h
  · rw [if_neg hl] at h
    exact ⟨Option.not_isSome_iff_eq_none.1 hl, (Option.some.inj h).symm⟩

/-- Removing the entity just appended by `insert` hits the swap-free branch and
restores the original dense arrays while erasing the map entry. -/
theorem ComponentArray.remove_after_insert {T : Type} (a : ComponentArray T)
    (e : Entity) (v : T) (h : lookupA a.entityToIndex e = none) :
    ComponentArray.remove
      ⟨a.components ++ [v], assignA a.entityToIndex e a.components.length,
        a.indexToEntity ++ [e]⟩ e =
      some ⟨a.components, a.entityToIndex, a.indexToEntity⟩ := by
  unfold ComponentArray.remove
  rw [show lookupA (assignA a.entityToIndex e a.components.length) e =
      some a.components.length from lookupA_assignA_self _ _ _]
  simp only [List.length_append, List.length_cons, List.length_nil, Nat.add_zero]
  rw [assignA_of_lookupA_none _ _ _ h, eraseA_append_of_none _ _ _ h]
  simp [List.dropLast_concat]

theorem ComponentManager.addComponent_parts {cm cm2 : ComponentManager} {t : CompType}
    {e : Entity} {v : Nat} (h : cm.addComponent t e v = some cm2) :
    ∃ a a2, cm.getComponentArray t = some a ∧ a.insert e v = some a2 ∧
      cm2 = { cm with typeToArray := assignA cm.typeToArray t a2 } := by
  unfold ComponentManager.addComponent at h
  cases h1 : cm.getComponentArray t with
  | none => rw [h1] at h; exact Option.noConfusion h
  | some a =>
    rw [h1] at h
    simp only [Option.some_bind] at h
    cases h2 : a.insert e v with
    | none => rw [h2] at h; exact Option.noConfusion h
    | some a2 =>
      rw [h2] at h
      simp only [Option.map_some'] at h
      exact ⟨a, a2, rfl, h2, (Option.some.inj h).symm⟩

theorem ComponentManager.removeComponent_parts {cm cm2 : ComponentManager} {t : CompType}
    {e : Entity} (h : cm.removeComponent t e = some cm2) :
    ∃ a a2, cm.getComponentArray t = some a ∧ a.remove e = some a2 ∧
      cm2 = { cm with typeToArray := assignA cm.typeToArray t a2 } := by
  unfold ComponentManager.removeComponent at h
  cases h1 : cm.getComponentArray t with
  | none => rw [h1] at h; exact Option.noConfusion h
  | some a =>
    rw [h1] at h
    simp only [Option.some_bind] at h
    cases h2 : a.remove e with
    | none => rw [h2] at h; exact Option.noConfusion h
    | some a2 =>
      rw [h2] at h
      simp only [Option.map_some'] at h
      exact ⟨a, a2, rfl, h2, (Option.some.inj h).symm⟩

/-- Claim C6: for a registered component type (bit `b`) and a valid entity
with no component of that type, executing `addComponent` and then
`removeComponent` (both running to completion) leaves `hasComponent` false
and leaves the type's bit cleared in the entity's stored signature. -/
theorem c6_add_remove_roundtrip (w w1 w2 : World) (t : CompType) (e : Entity) (v : Nat)
    (b : ComponentBit) (hb : b < MAX_COMPONENTS)
    (hbit : w.componentManager.getBit t = some b)
    (hhas : w.hasComponent t e = some false)
    (hadd : w.addComponent t e v = some w1)
    (hrem : w1.removeComponent t e = some w2) :
    w2.hasComponent t e = some false ∧
    (⟨b, hb⟩ : Fin MAX_COMPONENTS) ∉ w2.entityManager.signatures.getD e ∅ := by
  obtain ⟨cm2, sig1, b1, hb1, hcm2, hsig1, hbit1, hrange1, hw1⟩ := World.addComponent_inv hadd
  obtain ⟨arrA, arrA2, hgetA, hinsA, hcm2eq⟩ := ComponentManager.addComponent_parts hcm2
  obtain ⟨hlookE, harrA2⟩ := ComponentArray.insert_inv hinsA
  subst harrA2
  subst hcm2eq
  subst hw1
  obtain ⟨cm3, sig2, b2, hb2, hcm3, hsig2, hbit2, hrange2, hw2⟩ := World.removeComponent_inv hrem
  obtain ⟨arrB, arrB2, hgetB, hremB, hcm3eq⟩ := ComponentManager.removeComponent_parts hcm3
  have hgetB2 : ComponentManager.getComponentArray
      { w.componentManager with typeToArray :=
        (assignA w.componentManager.typeToArray t
          ⟨arrA.components ++ [v], assignA arrA.entityToIndex e arrA.components.length,
            arrA.indexToEntity ++ [e]⟩) } t = some arrB := hgetB
  unfold ComponentManager.getComponentArray at hgetB2
  dsimp only at hgetB2
  rw [lookupA_assignA_self] at hgetB2
  have harrB : arrB = ⟨arrA.components ++ [v],
      assignA arrA.entityToIndex e arrA.components.length,
      arrA.indexToEntity ++ [e]⟩ := (Option.some.inj hgetB2).symm
  subst harrB
  have hremB2 := ComponentArray.remove_after_insert arrA e v hlookE
  rw [hremB2] at hremB
  have harrB2 : arrB2 = ⟨arrA.components, arrA.entityToIndex, arrA.indexToEntity⟩ :=
    (Option.some.inj hremB).symm
  subst harrB2
  have hbit1b : lookupA w.componentManager.typeToBit t = some b1 := hbit1
  have hbit2b : lookupA w.componentManager.typeToBit t = some b2 := hbit2
  have hbitb : lookupA w.componentManager.typeToBit t = some b := hbit
  have hbb : b1 = b := Option.some.inj (hbit1b.symm.trans hbitb)
  have hb2b : b2 = b := Option.some.inj (hbit2b.symm.trans hbitb)
  subst hcm3eq
  subst hw2
  constructor
  · unfold World.hasComponent ComponentManager.hasComponent
      ComponentManager.getComponentArray World.updateSystemEntitySets
    dsimp only
    rw [lookupA_assignA_self]
    simp only [Option.map_some']
    simp [ComponentArray.has, hlookE]
  · have hg : (World.updateSystemEntitySets
        { w with
          componentManager := { w.componentManager with typeToArray :=
            (assignA w.componentManager.typeToArray t
              ⟨arrA.components ++ [v], assignA arrA.entityToIndex e arrA.components.length,
                arrA.indexToEntity ++ [e]⟩) },
          entityManager := { w.entityManager with signatures :=
            (w.entityManager.signatures.set e (insert ⟨b1, hb1⟩ sig1)) } }
        e (insert ⟨b1, hb1⟩ sig1)).entityManager.signatures.get? e = some sig2 :=
      (EntityManager.getSignature_inv hsig2).2
    have hlen1 : e < (World.updateSystemEntitySets
        { w with
          componentManager := { w.componentManager with typeToArray :=
            (assignA w.componentManager.typeToArray t
              ⟨arrA.components ++ [v], assignA arrA.entityToIndex e arrA.components.length,
                arrA.indexToEntity ++ [e]⟩) },
          entityManager := { w.entityManager with signatures :=
            (w.entityManager.signatures.set e (insert ⟨b1, hb1⟩ sig1)) } }
        e (insert ⟨b1, hb1⟩ sig1)).entityManager.signatures.length := by
      by_contra hge
      rw [List.get?_eq_none.2 (Nat.le_of_not_lt hge)] at hg
      exact Option.noConfusion hg
    show (⟨b, hb⟩ : Fin MAX_COMPONENTS) ∉
      ((World.updateSystemEntitySets
        { w with
          componentManager := { w.componentManager with typeToArray :=
            (assignA w.componentManager.typeToArray t
              ⟨arrA.components ++ [v], assignA arrA.entityToIndex e arrA.components.length,
                arrA.indexToEntity ++ [e]⟩) },
          entityManager := { w.entityManager with signatures :=
            (w.entityManager.signatures.set e (insert ⟨b1, hb1⟩ sig1)) } }
        e (insert ⟨b1, hb1⟩ sig1)).entityManager.signatures.set e
          (sig2.erase ⟨b2, hb2⟩)).getD e ∅
    rw [getD_set_self _ _ _ _ hlen1]
    have hfin : (⟨b, hb⟩ : Fin MAX_COMPONENTS) = ⟨b2, hb2⟩ := Fin.ext hb2b.symm
    rw [hfin]
    exact Finset.not_mem_erase _ _

/-- A world with one component type (key 5, bit 0) registered; input for the
C6 and C8 witnesses. -/
def wA : World :=
  { World.init with componentManager := ⟨[(5, 0)], [(5, ComponentArray.empty Nat)], 1⟩ }

/-- The world after `wA.addComponent 5 1 7`. -/
def c6w1 : World :=
  ⟨⟨List.range' 1 MAX_ENTITIES, (List.replicate (MAX_ENTITIES + 1) ∅).set 1 {0}, 0⟩,
   ⟨[(5, 0)], [(5, ⟨[7], [(1, 0)], [1]⟩)], 1⟩, [], []⟩

/-- The world after removing that component again. -/
def c6w2 : World :=
  ⟨⟨List.range' 1 MAX_ENTITIES,
     ((List.replicate (MAX_ENTITIES + 1) ∅).set 1 {0}).set 1 (({0} : Signature).erase 0), 0⟩,
   ⟨[(5, 0)], [(5, ⟨[], [], []⟩)], 1⟩, [], []⟩

/-- Witness for C6 at a concrete world, component type and entity. -/
theorem c6_add_remove_roundtrip_witness :
    wA.componentManager.getBit 5 = some 0 ∧
    wA.hasComponent 5 1 = some false ∧
    wA.addComponent 5 1 7 = some c6w1 ∧
    c6w1.removeComponent 5 1 = some c6w2 ∧
    (c6w2.hasComponent 5 1 = some false ∧
      (⟨0, by decide⟩ : Fin MAX_COMPONENTS) ∉ c6w2.entityManager.signatures.getD 1 ∅) :=
  ⟨rfl, rfl, rfl, rfl,
    c6_add_remove_roundtrip wA c6w1 c6w2 5 1 7 0 (by decide) rfl rfl rfl rfl⟩

/-- A fixed required signature used by concrete witness states. -/
def sigA : Signature := {0}

/-- The world after registering system `sysS` on `wA` and adding component
type 5 to entity 1. -/
def w8 : World :=
  ⟨⟨List.range' 1 MAX_ENTITIES, (List.replicate (MAX_ENTITIES + 1) ∅).set 1 {0}, 0⟩,
   ⟨[(5, 0)], [(5, ⟨[7], [(1, 0)], [1]⟩)], 1⟩,
   [(sysS, ⟨{1}, sysS, sigA, true⟩)], [sysS]⟩

/-- Witness for C8 at a concrete world, system and entity. -/
theorem c8_registerSystem_no_retroactive_witness :
    ((wA.registerSystem sysS sigA).1.entities = ∅ ∧
      World.getSystem (wA.registerSystem sysS sigA).2 sysS =
        some (wA.registerSystem sysS sigA).1) ∧
    (∃ w2, (wA.registerSystem sysS sigA).2.addComponent 5 1 7 = some w2 ∧
      ∃ S2, World.getSystem w2 sysS = some S2 ∧
        (1 ∈ S2.entities ↔ w2.entityManager.signatures.getD 1 ∅ ∩ sigA = sigA)) := by
  refine ⟨(c8_registerSystem_no_retroactive wA sysS sigA).1, ⟨w8, rfl, ?_⟩⟩
  exact (c8_registerSystem_no_retroactive wA sysS sigA).2 5 1 7 w8 rfl

/-! ### C1: the system entity-set membership invariant

A trace language over the `World` operations that mutate entity/component
state, together with a registration phase that installs the systems first.
The invariant `C1Inv` records, for every registered system, both the
spec's membership condition and the fact that its required signature is
nonempty (the side condition under which the membership condition is an
invariant of the mutation operations). -/

inductive WOp where
  | createE : WOp
  | destroyE : Entity → WOp
  | regComp : CompType → WOp
  | addComp : CompType → Entity → Nat → WOp
  | removeComp : CompType → Entity → WOp

/-- Apply one world-level mutation. -/
def World.applyOp (w : World) : WOp → Option World
  | WOp.createE => (w.createEntity).map Prod.snd
  | WOp.destroyE e => w.destroyEntity e
  | WOp.regComp t => w.registerComponent t
  | WOp.addComp t e v => w.addComponent t e v
  | WOp.removeComp t e => w.removeComponent t e

/-- Run a trace of world-level mutations. -/
def runWOps : List WOp → World → Option World
  | [], w => some w
  | op :: rest, w => (w.applyOp op).bind (runWOps rest)

/-- Register a batch of systems (name, required signature), in order. -/
def registerSystemsPhase : List (String × Signature) → World → World
  | [], w => w
  | p :: rest, w => registerSystemsPhase rest (w.registerSystem p.1 p.2).2

/-- The signature currently stored for an entity (empty when out of range). -/
def sigOf (w : World) (e : Entity) : Signature :=
  w.entityManager.signatures.getD e ∅

/-- The C1 membership invariant: every registered system has a nonempty
required signature, and holds exactly the entities that are alive and whose
stored signature contains the system's signature. -/
def C1Inv (w : World) : Prop :=
  ∀ n S, lookupA w.systems n = some S →
    S.signature ≠ ∅ ∧
    ∀ e, e ∈ S.entities ↔
      (w.isAlive e = true ∧ sigOf w e ∩ S.signature = S.signature)

/-- The per-system effect of `World::destroyEntity` on its entity set. -/
def eraseSys (e : Entity) (s : SystemSt) : SystemSt :=
  { s with entities := s.entities.erase e }

/-- The per-system effect of `World::updateSystemEntitySets`. -/
def refreshSys (e : Entity) (sig2 : Signature) (s : SystemSt) : SystemSt :=
  if sig2 ∩ s.signature = s.signature
  then { s with entities := insert e s.entities }
  else { s with entities := s.entities.erase e }

theorem getD_set_default {α : Type} (l : List α) (i : Nat) (d : α) :
    (l.set i d).getD i d = d := by
  by_cases h : i < l.length
  · exact getD_set_self l i d d h
  · rw [List.getD_eq_get?,
        List.get?_eq_none.2 (by rw [List.length_set]; exact Nat.le_of_not_lt h)]
    rfl

theorem World.isAlive_congr2 (w w2 : World) (e : Entity)
    (h : sigOf w2 e = sigOf w e) : w2.isAlive e = w.isAlive e := by
  unfold World.isAlive
  unfold sigOf at h
  rw [h]

theorem World.isAlive_true_of (w : World) (e : Entity) (h1 : NULL_ENTITY < e)
    (h2 : e ≤ MAX_ENTITIES) (h3 : sigOf w e ≠ ∅) : w.isAlive e = true := by
  unfold World.isAlive
  have hcond : ¬(e = NULL_ENTITY ∨ MAX_ENTITIES < e) := by
    intro hor
    cases hor with
    | inl h0 => rw [h0] at h1; exact Nat.lt_irrefl _ h1
    | inr hm => exact Nat.lt_irrefl _ (Nat.lt_of_le_of_lt h2 hm)
  rw [if_neg hcond]
  exact decide_eq_true h3

theorem World.isAlive_false_of_empty (w : World) (e : Entity)
    (h : sigOf w e = ∅) : w.isAlive e = false := by
  unfold World.isAlive
  by_cases hc : e = NULL_ENTITY ∨ MAX_ENTITIES < e
  · rw [if_pos hc]
  · rw [if_neg hc]
    unfold sigOf at h
    rw [h]
    decide

/-- `C1Inv` only depends on the systems map and the signature array. -/
theorem C1Inv_congr (w w2 : World) (hsys : w2.systems = w.systems)
    (hsig : w2.entityManager.signatures = w.entityManager.signatures)
    (hI : C1Inv w) : C1Inv w2 := by
  intro n S hS
  rw [hsys] at hS
  obtain ⟨hne, hmem⟩ := hI n S hS
  refine ⟨hne, fun e => ?_⟩
  have hsigOf : sigOf w2 e = sigOf w e := by
    unfold sigOf
    rw [hsig]
  rw [World.isAlive_congr2 w w2 e hsigOf, hsigOf]
  exact hmem e

theorem EntityManager.createEntity_sig {m : EntityManager} {q : Entity × EntityManager}
    (h : m.createEntity = some q) : q.2.signatures = m.signatures := by
  unfold EntityManager.createEntity at h
  by_cases hlt : m.livingCount < MAX_ENTITIES
  · rw [if_pos hlt] at h
    cases hav : m.availableIds with
    | nil => rw [hav] at h; exact Option.noConfusion h
    | cons id rest =>
      rw [hav] at h
      injection h with h2
      rw [← h2]
  · rw [if_neg hlt] at h
    exact Option.noConfusion h

/-- `C1Inv` is preserved by `World::destroyEntity`: the destroyed id is
erased from every system set and its signature is cleared, so both sides of
the membership equivalence become false for it. -/
theorem c1inv_destroy_aux (w w2 : World) (e : Entity)
    (hsys : w2.systems = w.systems.map fun p => (p.1, eraseSys e p.2))
    (hsig : w2.entityManager.signatures = w.entityManager.signatures.set e ∅)
    (hI : C1Inv w) : C1Inv w2 := by
  intro n S2 hS2
  rw [hsys, lookupA_map_value w.systems (eraseSys e) n] at hS2
  cases hS : lookupA w.systems n with
  | none => rw [hS] at hS2; exact Option.noConfusion hS2
  | some S =>
    rw [hS] at hS2
    simp only [Option.map_some'] at hS2
    injection hS2 with hS2e
    obtain ⟨hne, hmem⟩ := hI n S hS
    subst hS2e
    refine ⟨hne, fun e2 => ?_⟩
    by_cases he2 : e2 = e
    · subst he2
      have hempty : sigOf w2 e2 = ∅ := by
        unfold sigOf
        rw [hsig]
        exact getD_set_default _ _ _
      constructor
      · intro hm
        exact absurd rfl (Finset.mem_erase.mp hm).1
      · rintro ⟨ha, -⟩
        rw [World.isAlive_false_of_empty w2 e2 hempty] at ha
        exact Bool.noConfusion ha
    · have hsig2 : sigOf w2 e2 = sigOf w e2 := by
        unfold sigOf
        rw [hsig]
        exact getD_set_ne _ _ _ _ _ fun hh => he2 hh.symm
      rw [World.isAlive_congr2 w w2 e2 hsig2, hsig2]
      constructor
      · intro hm
        exact (hmem e2).mp (Finset.mem_erase.mp hm).2
      · intro hr
        exact Finset.mem_erase.mpr ⟨he2, (hmem e2).mpr hr⟩

/-- `C1Inv` is preserved by `World::updateSystemEntitySets` run over a world
whose stored signature for `e` has just been set to `sig2` (the common tail
of `addComponent` and `removeComponent`).  The nonemptiness of each system
signature is what makes an inserted entity alive. -/
theorem c1inv_refresh (w w2 : World) (e : Entity) (sig2 : Signature)
    (hr1 : NULL_ENTITY < e) (hr2 : e ≤ MAX_ENTITIES)
    (hlen : e < w.entityManager.signatures.length)
    (hsys : w2.systems = w.systems.map fun p => (p.1, refreshSys e sig2 p.2))
    (hsig : w2.entityManager.signatures = w.entityManager.signatures.set e sig2)
    (hI : C1Inv w) : C1Inv w2 := by
  have hself : sigOf w2 e = sig2 := by
    unfold sigOf
    rw [hsig]
    exact getD_set_self _ _ _ _ hlen
  intro n S2 hS2
  rw [hsys, lookupA_map_value w.systems (refreshSys e sig2) n] at hS2
  cases hS : lookupA w.systems n with
  | none => rw [hS] at hS2; exact Option.noConfusion hS2
  | some S =>
    rw [hS] at hS2
    simp only [Option.map_some'] at hS2
    injection hS2 with hS2e
    obtain ⟨hne, hmem⟩ := hI n S hS
    subst hS2e
    unfold refreshSys
    by_cases hcond : sig2 ∩ S.signature = S.signature
    · rw [if_pos hcond]
      refine ⟨hne, fun e2 => ?_⟩
      by_cases he2 : e2 = e
      · subst he2
        have halive : w2.isAlive e2 = true := by
          refine World.isAlive_true_of w2 e2 hr1 hr2 ?_
          rw [hself]
          intro hemp
          exact hne (Finset.subset_empty.mp (hemp ▸ Finset.inter_eq_right.mp hcond))
        refine iff_of_true (Finset.mem_insert_self e2 S.entities) ⟨halive, ?_⟩
        rw [hself]
        exact hcond
      · have hsig2 : sigOf w2 e2 = sigOf w e2 := by
          unfold sigOf
          rw [hsig]
          exact getD_set_ne _ _ _ _ _ fun hh => he2 hh.symm
        rw [World.isAlive_congr2 w w2 e2 hsig2, hsig2]
        constructor
        · intro hm
          exact (hmem e2).mp ((Finset.mem_insert.mp hm).resolve_left he2)
        · intro hr
          exact Finset.mem_insert_of_mem ((hmem e2).mpr hr)
    · rw [if_neg hcond]
      refine ⟨hne, fun e2 => ?_⟩
      by_cases he2 : e2 = e
      · subst he2
        constructor
        · intro hm
          exact absurd rfl (Finset.mem_erase.mp hm).1
        · rintro ⟨-, hc⟩
          rw [hself] at hc
          exact absurd hc hcond
      · have hsig2 : sigOf w2 e2 = sigOf w e2 := by
          unfold sigOf
          rw [hsig]
          exact getD_set_ne _ _ _ _ _ fun hh => he2 hh.symm
        rw [World.isAlive_congr2 w w2 e2 hsig2, hsig2]
        constructor
        · intro hm
          exact (hmem e2).mp (Finset.mem_erase.mp hm).2
        · intro hr
          exact Finset.mem_erase.mpr ⟨he2, (hmem e2).mpr hr⟩

theorem registerSystemsPhase_em (regs : List (String × Signature)) :
    ∀ w : World, (registerSystemsPhase regs w).entityManager = w.entityManager := by
  induction regs with
  | nil => intro w; rfl
  | cons p rest ih =>
    intro w
    show (registerSystemsPhase rest (w.registerSystem p.1 p.2).2).entityManager =
      w.entityManager
    rw [ih ((w.registerSystem p.1 p.2).2)]
    rfl

/-- After a registration phase over systems with fresh entity sets, every
system found in the map has an empty entity set and (when each batch entry's
signature is nonempty) a nonempty required signature. -/
theorem registerSystemsPhase_inv (regs : List (String × Signature)) :
    ∀ w : World,
      (∀ n S, lookupA w.systems n = some S → S.entities = ∅ ∧ S.signature ≠ ∅) →
      (∀ p ∈ regs, p.2 ≠ ∅) →
      ∀ n S, lookupA (registerSystemsPhase regs w).systems n = some S →
        S.entities = ∅ ∧ S.signature ≠ ∅ := by
  induction regs with
  | nil => intro w hw _ n S h; exact hw n S h
  | cons p rest ih =>
    intro w hw hr n S h
    refine ih ((w.registerSystem p.1 p.2).2) ?_
      (fun q hq => hr q (List.mem_cons_of_mem p hq)) n S h
    intro n2 S2 h2
    have h2b : lookupA (assignA w.systems p.1 ⟨∅, p.1, p.2, true⟩) n2 = some S2 := h2
    by_cases hn : n2 = p.1
    · subst hn
      rw [lookupA_assignA_self] at h2b
      injection h2b with h2e
      rw [← h2e]
      exact ⟨rfl, hr p (List.mem_cons_self p rest)⟩
    · rw [lookupA_assignA_ne _ _ _ _ hn] at h2b
      exact hw n2 S2 h2b

/-- The registration phase starting from the initial world establishes the
C1 invariant, provided every requested signature is nonempty. -/
theorem c1inv_phase (regs : List (String × Signature))
    (hr : ∀ p ∈ regs, p.2 ≠ ∅) : C1Inv (registerSystemsPhase regs World.init) := by
  intro n S hS
  obtain ⟨hent, hne⟩ := registerSystemsPhase_inv regs World.init
    (by intro n2 S2 h2; exact Option.noConfusion h2) hr n S hS
  refine ⟨hne, fun e => ?_⟩
  rw [hent]
  have hsig : sigOf (registerSystemsPhase regs World.init) e = ∅ := by
    unfold sigOf
    rw [registerSystemsPhase_em regs World.init]
    exact getD_replicate (MAX_ENTITIES + 1) e ∅
  have halive := World.isAlive_false_of_empty (registerSystemsPhase regs World.init) e hsig
  constructor
  · intro hm
    exact absurd hm (Finset.not_mem_empty e)
  · rintro ⟨ha, -⟩
    rw [halive] at ha
    exact Bool.noConfusion ha

/-- Each world-level mutation preserves the C1 invariant. -/
theorem applyOp_c1inv {w w2 : World} {op : WOp}
    (h : w.applyOp op = some w2) (hI : C1Inv w) : C1Inv w2 := by
  cases op with
  | createE =>
    simp only [World.applyOp] at h
    unfold World.createEntity at h
    cases hc : w.entityManager.createEntity with
    | none => rw [hc] at h; exact Option.noConfusion h
    | some q =>
      rw [hc] at h
      simp only [Option.map_some'] at h
      injection h with h2
      subst h2
      exact C1Inv_congr w _ rfl (EntityManager.createEntity_sig hc) hI
  | destroyE e =>
    simp only [World.applyOp] at h
    unfold World.destroyEntity at h
    cases hcd : w.componentManager.entityDestroyed e with
    | none =>
      rw [hcd] at h
      simp only [Option.none_bind] at h
      exact Option.noConfusion h
    | some cm2 =>
      rw [hcd] at h
      simp only [Option.some_bind] at h
      unfold EntityManager.destroyEntity at h
      by_cases hrange : NULL_ENTITY < e ∧ e ≤ MAX_ENTITIES
      · rw [if_pos hrange] at h
        simp only [Option.map_some'] at h
        injection h with h2
        subst h2
        exact c1inv_destroy_aux w _ e rfl rfl hI
      · rw [if_neg hrange] at h
        simp only [Option.map_none'] at h
        exact Option.noConfusion h
  | regComp t =>
    simp only [World.applyOp] at h
    unfold World.registerComponent at h
    cases hr : w.componentManager.registerComponent t with
    | none => rw [hr] at h; exact Option.noConfusion h
    | some cm2 =>
      rw [hr] at h
      simp only [Option.map_some'] at h
      injection h with h2
      subst h2
      exact C1Inv_congr w _ rfl rfl hI
  | addComp t e v =>
    simp only [World.applyOp] at h
    obtain ⟨cm2, sig1, b, hb, hcm, hsig1, hbit, hrange, hw2⟩ := World.addComponent_inv h
    subst hw2
    have hget := (EntityManager.getSignature_inv hsig1).2
    have hlt : e < w.entityManager.signatures.length := by
      by_cases hl : e < w.entityManager.signatures.length
      · exact hl
      · rw [List.get?_eq_none.2 (Nat.le_of_not_lt hl)] at hget
        exact Option.noConfusion hget
    refine c1inv_refresh w _ e (insert ⟨b, hb⟩ sig1) hrange.1 hrange.2 hlt ?_ ?_ hI
    · rfl
    · rfl
  | removeComp t e =>
    simp only [World.applyOp] at h
    obtain ⟨cm2, sig1, b, hb, hcm, hsig1, hbit, hrange, hw2⟩ := World.removeComponent_inv h
    subst hw2
    have hget := (EntityManager.getSignature_inv hsig1).2
    have hlt : e < w.entityManager.signatures.length := by
      by_cases hl : e < w.entityManager.signatures.length
      · exact hl
      · rw [List.get?_eq_none.2 (Nat.le_of_not_lt hl)] at hget
        exact Option.noConfusion hget
    refine c1inv_refresh w _ e (sig1.erase ⟨b, hb⟩) hrange.1 hrange.2 hlt ?_ ?_ hI
    · rfl
    · rfl

/-- A whole trace of world-level mutations preserves the C1 invariant. -/
theorem runWOps_c1inv (ops : List WOp) :
    ∀ w w2 : World, C1Inv w → runWOps ops w = some w2 → C1Inv w2 := by
  induction ops with
  | nil =>
    intro w w2 hI h
    exact Option.some.inj h ▸ hI
  | cons op rest ih =>
    intro w w2 hI h
    simp only [runWOps] at h
    cases hop : w.applyOp op with
    | none =>
      rw [hop] at h
      simp only [Option.none_bind] at h
      exact Option.noConfusion h
    | some wmid =>
      rw [hop] at h
      simp only [Option.some_bind] at h
      exact ih wmid w2 (applyOp_c1inv hop hI) h

/-- Claim C1 (amended): the original membership invariant — for every
registered system `S` and entity `e`, after any trace of
`createEntity`/`destroyEntity`/`registerComponent`/`addComponent`/
`removeComponent` calls, `e ∈ S.entities` iff `e` is alive and
`(signature(e) & S.signature) == S.signature` — holds provided every system
is registered before the mutations begin and every system's required
signature is nonempty.  (Without those provisos the source violates the
claim: see the counterexample.) -/
theorem c1_membership_invariant_amended
    (regs : List (String × Signature)) (ops : List WOp) (w : World)
    (hreg : ∀ p ∈ regs, p.2 ≠ ∅)
    (hrun : runWOps ops (registerSystemsPhase regs World.init) = some w) :
    ∀ n S, w.getSystem n = some S →
      ∀ e, e ∈ S.entities ↔
        (w.isAlive e = true ∧
          w.entityManager.signatures.getD e ∅ ∩ S.signature = S.signature) := by
  intro n S hS e
  have hI := runWOps_c1inv ops (registerSystemsPhase regs World.init) w
    (c1inv_phase regs hreg) hrun
  exact (hI n S hS).2 e

/-- The mutation trace used by the C1 counterexample: register component
type 5, create entity 1, give it component 5, then take the component away
again. -/
def c1ops : List WOp :=
  [WOp.regComp 5, WOp.createE, WOp.addComp 5 1 7, WOp.removeComp 5 1]

/-- The world reached by `c1ops` after registering one system with an empty
required signature. -/
def wCE : World :=
  ⟨⟨List.range' 2 4095, ((List.replicate (MAX_ENTITIES + 1) ∅).set 1 {0}).set 1
      (({0} : Signature).erase 0), 1⟩,
   ⟨[(5, 0)], [(5, ⟨[], [], []⟩)], 1⟩,
   [(sysS, ⟨{1}, sysS, ∅, true⟩)], [sysS]⟩

/-- Claim C1, counterexample to the literal statement: register a system
whose required signature is empty, create entity 1, add component 5, then
remove it.  The final `removeComponent` leaves entity 1 with an empty
signature — so `isAlive 1` is false — yet `updateSystemEntitySets` re-inserts
it into the system's entity set (the empty-signature match test passes and
the refresh never checks liveness), violating the claimed equivalence. -/
theorem c1_counterexample :
    runWOps c1ops (registerSystemsPhase [(sysS, (∅ : Signature))] World.init) =
      some wCE ∧
    ∃ S, wCE.getSystem sysS = some S ∧
      (1 : Entity) ∈ S.entities ∧ wCE.isAlive 1 = false := by
  refine ⟨rfl, ⟨⟨{1}, sysS, ∅, true⟩, rfl, ?_, rfl⟩⟩
  exact Finset.mem_singleton_self 1

/-- The mutation trace used by the C1 witness: register component type 5,
create entity 1, and give it component 5. -/
def c1opsW : List WOp := [WOp.regComp 5, WOp.createE, WOp.addComp 5 1 7]

/-- The world reached by `c1opsW` after registering one system that requires
bit 0. -/
def wCW : World :=
  ⟨⟨List.range' 2 4095, (List.replicate (MAX_ENTITIES + 1) ∅).set 1 {0}, 1⟩,
   ⟨[(5, 0)], [(5, ⟨[7], [(1, 0)], [1]⟩)], 1⟩,
   [(sysS, ⟨{1}, sysS, sigA, true⟩)], [sysS]⟩

/-- Witness for C1 at a concrete registration batch and mutation trace. -/
theorem c1_membership_invariant_amended_witness :
    (∀ p ∈ [(sysS, sigA)], (p : String × Signature).2 ≠ ∅) ∧
    runWOps c1opsW (registerSystemsPhase [(sysS, sigA)] World.init) = some wCW ∧
    ((1 : Entity) ∈ (⟨{1}, sysS, sigA, true⟩ : SystemSt).entities ↔
      (wCW.isAlive 1 = true ∧
        wCW.entityManager.signatures.getD 1 ∅ ∩ sigA = sigA)) := by
  refine ⟨by decide, rfl, ?_⟩
  exact c1_membership_invariant_amended [(sysS, sigA)] c1opsW wCW (by decide) rfl
    sysS ⟨{1}, sysS, sigA, true⟩ rfl 1
